import Mathlib

/-!
# MathOptFormat: schema summariser (`src/mof/mof.go`) and readme builder

A shallow embedding of the schema-introspection code of the `mof` tool, of its
validation entry point, and of the readme builder
(`src/readme_builder/readme_builder.go`, `src/src/readme-builder/readme-builder.go`).

* A decoded JSON document (`interface{}` as produced by `encoding/json`) is a
  value of `Json`; a `map[string]interface{}` is an association list `JMap`
  read with `List.lookup`.
* A Go run-time panic (failed type assertion, index out of range) is the
  result `none`; a normal return is `some _`.
* Go strings produced by the JSON decoder are valid UTF-8, and the only
  pattern ever replaced is the one-byte string `|`, so strings are Lean
  `String`s and replacement works on characters.
-/

namespace MOF

/-- A decoded JSON value. The payload of a number is never inspected by the
program, only its dynamic type. -/
inductive Json where
  | null : Json
  | bool (b : Bool) : Json
  | num (n : Int) : Json
  | str (s : String) : Json
  | arr (xs : List Json) : Json
  | obj (kvs : List (String × Json)) : Json

/-- The Go type `map[string]interface{}`. -/
abbrev JMap := List (String × Json)

/-- The type assertion `v.(string)` on the result of a map read (`none` is the
nil interface of an absent key). -/
def assertString : Option Json → Option String
  | some (Json.str s) => some s
  | _ => none

/-- The type assertion `v.([]interface{})`. -/
def assertSlice : Option Json → Option (List Json)
  | some (Json.arr xs) => some xs
  | _ => none

/-- The type assertion `v.(map[string]interface{})`. -/
def assertMap : Option Json → Option JMap
  | some (Json.obj m) => some m
  | _ => none

/-- Character-level body of `strings.ReplaceAll(s, "|", "\\|")`. -/
def replacePipeChars : List Char → List Char
  | [] => []
  | c :: cs => if c = '|' then '\\' :: '|' :: replacePipeChars cs else c :: replacePipeChars cs

/-- The call `strings.ReplaceAll(s, "|", "\\|")`. -/
def replacePipe (s : String) : String := String.mk (replacePipeChars s.data)

/-- The record type `Object` of `mof.go`. -/
structure Object where
  Head : String
  Description : String
  Example : String
deriving DecidableEq, Repr

/-- Lines 116-122 of `oneOfToObject`: the description of a branch. -/
def branchDescription (data : JMap) : Option String :=
  match data.lookup "description" with
  | some val => (assertString (some val)).map replacePipe
  | none => some ""

/-- Lines 123-129 of `oneOfToObject`: the example of a branch. -/
def branchExample (data : JMap) : Option String :=
  match data.lookup "examples" with
  | none => some ""
  | some vals => (assertSlice (some vals)).bind fun xs => assertString xs.head?

/-- The loop of lines 137-140: one `Object` per enum entry, each entry asserted
to be a string. -/
def enumObjects (description exampleStr : String) : List Json → Option (List Object)
  | [] => some []
  | name :: rest =>
    (assertString (some name)).bind fun h =>
      (enumObjects description exampleStr rest).map fun os =>
        { Head := h, Description := description, Example := exampleStr } :: os

/-- The function `oneOfToObject` of `mof.go`. -/
def oneOfToObject (data : JMap) : Option (List Object) :=
  (branchDescription data).bind fun description =>
  (branchExample data).bind fun exampleStr =>
  (assertMap (data.lookup "properties")).bind fun properties =>
  (assertMap (properties.lookup "head")).bind fun head =>
    match head.lookup "const" with
    | some val =>
      (assertString (some val)).map fun h =>
        [{ Head := h, Description := description, Example := exampleStr }]
    | none =>
      match head.lookup "enum" with
      | some val => (assertSlice (some val)).bind (enumObjects description exampleStr)
      | none => some []

/-- The format `"| `\"%s\"` | %s | %s |\n"` applied to a record. -/
def formatRow (o : Object) : String :=
  "| `\"" ++ o.Head ++ "\"` | " ++ o.Description ++ " | " ++ o.Example ++ " |\n"

/-- The two header lines of a category table. -/
def tableHeader : String :=
  "| Name | Description | Example |\n" ++ "| ---- | ----------- | ------- |\n"

/-- The inner loop of `summarize`: append one row per record. -/
def appendRows (summary : String) (objects : List Object) : String :=
  objects.foldl (fun s o => s ++ formatRow o) summary

/-- The outer loop of `summarize` over the `oneOf` branches. -/
def summarizeLoop : String → List Json → Option String
  | summary, [] => some summary
  | summary, oneOf :: rest =>
    (assertMap (some oneOf)).bind fun m =>
      (oneOfToObject m).bind fun objects =>
        summarizeLoop (appendRows summary objects) rest

/-- The function `summarize` of `mof.go`. -/
def summarize (data : JMap) (key : String) : Option String :=
  (assertMap (data.lookup "definitions")).bind fun definitions =>
  (assertMap (definitions.lookup key)).bind fun keyData =>
  (assertSlice (keyData.lookup "oneOf")).bind fun oneOfs =>
    summarizeLoop tableHeader oneOfs

/-- The two header lines of the operator table. -/
def operatorHeader : String :=
  "| Name | Arity |\n" ++ "| ---- | ----- |\n"

/-- The formats `"| `\"%s\"` | Unary |\n"`, `"| `\"%s\"` | Binary |\n"` and
`"| `\"%s\"` | N-ary |\n"`, which differ only in the arity word. -/
def formatOperatorRow (arity : String) (f : Object) : String :=
  "| `\"" ++ f.Head ++ "\"` | " ++ arity ++ " |\n"

/-- The loops of lines 172-185: append one operator row per record. -/
def appendOperatorRows (arity : String) (operators : String) (objects : List Object) : String :=
  objects.foldl (fun s f => s ++ formatOperatorRow arity f) operators

/-- A `switch` case: the interface value read from the map equals the string
constant `s` (an absent key is the nil interface, equal to no string). -/
def caseEq (v : Option Json) (s : String) : Bool :=
  match v with
  | some (Json.str t) => t == s
  | _ => false

/-- The body of the loop of `summarizeNonlinear` (lines 168-194) on the pair
`(operators, leaves)`. The log line of the `else` branch is not modelled. -/
def nonlinearStep (acc : String × String) (term : Json) : Option (String × String) :=
  (assertMap (some term)).bind fun oneOf =>
  (oneOfToObject oneOf).map fun objects =>
    if caseEq (oneOf.lookup "description") "Unary operators" then
      (appendOperatorRows "Unary" acc.1 objects, acc.2)
    else if caseEq (oneOf.lookup "description") "Binary operators" then
      (appendOperatorRows "Binary" acc.1 objects, acc.2)
    else if caseEq (oneOf.lookup "description") "N-ary operators" then
      (appendOperatorRows "N-ary" acc.1 objects, acc.2)
    else
      match objects with
      | [o] => (acc.1, acc.2 ++ formatRow o)
      | _ => acc

/-- The loop of `summarizeNonlinear` over the `oneOf` branches. -/
def nonlinearLoop : String × String → List Json → Option (String × String)
  | acc, [] => some acc
  | acc, term :: rest => (nonlinearStep acc term).bind fun acc1 => nonlinearLoop acc1 rest

/-- The function `summarizeNonlinear` of `mof.go`; the result is the pair
`(operators, leaves)`. -/
def summarizeNonlinear (data : JMap) : Option (String × String) :=
  (assertMap (data.lookup "definitions")).bind fun definitions =>
  (assertMap (definitions.lookup "NonlinearTerm")).bind fun nonlinearTerm =>
  (assertSlice (nonlinearTerm.lookup "oneOf")).bind fun terms =>
    nonlinearLoop (operatorHeader, tableHeader) terms

/-! ## The readme builder (`src/readme_builder/readme_builder.go`) -/

/-- The record type `Set` of the readme builder. -/
structure Set where
  Head : String
  Description : String
  Example : String
deriving DecidableEq, Repr

/-- Lines 79-83 of `processOneOf`: the description, defaulted to the empty
string when the key is absent, asserted to be a string and escaped. -/
def setDescription (data : JMap) : Option String :=
  (assertString (match data.lookup "description" with
    | some description => some description
    | none => some (Json.str ""))).map replacePipe

/-- Lines 85-89 of `processOneOf`: the value of the key `example`, defaulted
to the empty string when the key is absent, asserted to be a string and
escaped. -/
def setExample (data : JMap) : Option String :=
  (assertString (match data.lookup "example" with
    | some exampleVal => some exampleVal
    | none => some (Json.str ""))).map replacePipe

/-- The loop of lines 98-100 of `processOneOf`. -/
def enumSets (description exampleStr : String) : List Json → Option (List Set)
  | [] => some []
  | name :: rest =>
    (assertString (some name)).bind fun h =>
      (enumSets description exampleStr rest).map fun sets =>
        { Head := h, Description := description, Example := exampleStr } :: sets

/-- The function `processOneOf`, the same in both copies of the readme
builder. -/
def processOneOf (data : JMap) : Option (List Set) :=
  (setDescription data).bind fun description =>
  (setExample data).bind fun exampleStr =>
  (assertMap (data.lookup "properties")).bind fun properties =>
  (assertMap (properties.lookup "head")).bind fun head =>
    match head.lookup "const" with
    | some val =>
      (assertString (some val)).map fun h =>
        [{ Head := h, Description := description, Example := exampleStr }]
    | none =>
      match head.lookup "enum" with
      | some val => (assertSlice (some val)).bind (enumSets description exampleStr)
      | none => some []

/-- The function `nestedGet` of `src/readme_builder/readme_builder.go`. -/
def nestedGet : JMap → List String → Option JMap
  | d, [] => some d
  | d, key :: keys => (assertMap (d.lookup key)).bind fun d1 => nestedGet d1 keys

/-- The format `"| `\"%s\"` | %s | %s |"` of `processStrings` applied to a
record. -/
def formatSetRow (set : Set) : String :=
  "| `\"" ++ set.Head ++ "\"` | " ++ set.Description ++ " | " ++ set.Example ++ " |"

/-- The inner loop of `processStrings`: append one line per record. -/
def appendSetRows (setStrings : List String) (sets : List Set) : List String :=
  sets.foldl (fun acc set => acc ++ [formatSetRow set]) setStrings

/-- The outer loop of `processStrings` over the `oneOf` branches. -/
def processLoop : List String → List Json → Option (List String)
  | setStrings, [] => some setStrings
  | setStrings, setData :: rest =>
    (assertMap (some setData)).bind fun m =>
      (processOneOf m).bind fun sets =>
        processLoop (appendSetRows setStrings sets) rest

/-- The four lines with which `processStrings` starts. -/
def setStringsInit (title : String) : List String :=
  ["#### " ++ title, "", "| Name | Description | Example |",
   "| ---- | ----------- | ------- |"]

/-- The function `processStrings` of `src/readme_builder/readme_builder.go`,
which reaches the category with `nestedGet`. -/
def processStrings (title : String) (data : JMap) (key : String) : Option String :=
  (nestedGet data ["definitions", key]).bind fun sets =>
  (assertSlice (sets.lookup "oneOf")).bind fun branches =>
  (processLoop (setStringsInit title) branches).map fun setStrings =>
    "\n".intercalate setStrings

namespace ReadmeSrc

/-- The function `processStrings` of `src/src/readme-builder/readme-builder.go`,
which reads `data["definitions"]` and then `[key]` directly. -/
def processStrings (title : String) (data : JMap) (key : String) : Option String :=
  (assertMap (data.lookup "definitions")).bind fun definitions =>
  (assertMap (definitions.lookup key)).bind fun sets =>
  (assertSlice (sets.lookup "oneOf")).bind fun branches =>
  (processLoop (setStringsInit title) branches).map fun setStrings =>
    "\n".intercalate setStrings

end ReadmeSrc

/-- The `n` successive object lookups `m[k1][k2]...[kn]`, applied from left to
right to the value reached so far, each result asserted to be an object. -/
def successiveLookups (m : JMap) (keys : List String) : Option JMap :=
  keys.foldl (fun d k => d.bind fun x => assertMap (x.lookup k)) (some m)

/-- The fields of a `Set` as an `Object`. -/
def Set.toObject (set : Set) : Object :=
  { Head := set.Head, Description := set.Description, Example := set.Example }

/-! ## Template mode of the readme builder (`main`, lines 44-50)

The template is read from a file as bytes; both placeholder tokens are ASCII,
so an occurrence of a token in the bytes is an occurrence in the characters
and the search is modelled on characters. -/

/-- The test `strings.HasPrefix(t, old)` on characters. -/
def hasPrefix : List Char → List Char → Bool
  | _, [] => true
  | [], _ :: _ => false
  | c :: cs, p :: ps => c == p && hasPrefix cs ps

/-- The search `strings.Index(t, old)` on characters: the least position at
which `old` starts in `t`. -/
def indexChars (old : List Char) : List Char → Option Nat
  | [] => if hasPrefix [] old then some 0 else none
  | c :: cs => if hasPrefix (c :: cs) old then some 0 else (indexChars old cs).map (· + 1)

/-- The call `strings.Replace(t, old, new, 1)` on characters: `t` itself when
`old` does not occur, else `t[:j] + new + t[j+len(old):]` for the first
position `j` of `old`. -/
def replaceOnceChars (old new t : List Char) : List Char :=
  match indexChars old t with
  | none => t
  | some j => t.take j ++ new ++ t.drop (j + old.length)

/-- The search `strings.Index(s, substr)`. -/
def Index (s substr : String) : Option Nat := indexChars substr.data s.data

/-- The call `strings.Replace(s, old, new, 1)`. -/
def Replace1 (s old new : String) : String :=
  String.mk (replaceOnceChars old.data new.data s.data)

/-- The first placeholder token. -/
def setToken : String := "[[[AUTOMATICALLY_GENERATED_SET_SUMMARY]]]"

/-- The second placeholder token. -/
def functionToken : String := "[[[AUTOMATICALLY_GENERATED_FUNCTION_SUMMARY]]]"

/-- The value `readme` of lines 44-50 of `main`, the same in both copies of the
readme builder. -/
def renderReadme (template setSummary functionSummary : String) : String :=
  Replace1 (Replace1 template setToken setSummary) functionToken functionSummary

/-- The token `old` starts at position `k` of `t`. -/
def occursAt (old t : List Char) (k : Nat) : Bool := hasPrefix (t.drop k) old

/-- Lines 121-131 of `generateDocs` in `src/readme_builder/readme_builder.go`:
the set summary and the function summary built from the decoded schema. The
other copy of the readme builder builds the same set summary. -/
def generateDocs (data : JMap) : Option (String × String) :=
  (processStrings "Scalar Sets" data "scalar_sets").bind fun scalarSets =>
  (processStrings "Vector Sets" data "vector_sets").bind fun vectorSets =>
  (processStrings "Scalar Functions" data "scalar_functions").bind fun scalarFunctions =>
  (processStrings "Vector Functions" data "vector_functions").map fun vectorFunctions =>
    ("\n".intercalate [scalarSets, "", vectorSets],
     "\n".intercalate [scalarFunctions, "", vectorFunctions])

/-- The number of positions of `t` at which `old` starts. -/
def occurrencesChars (old : List Char) : List Char → Nat
  | [] => if hasPrefix [] old then 1 else 0
  | c :: cs => (if hasPrefix (c :: cs) old then 1 else 0) + occurrencesChars old cs

/-- The number of occurrences of `substr` in `s`. -/
def occurrences (s substr : String) : Nat := occurrencesChars substr.data s.data

/-- A template with the set token, text, the function token and a second set
token. -/
def plainTemplate : String :=
  "# MathOptFormat\n" ++ setToken ++ "\nmiddle\n" ++ functionToken ++ ("\nend " ++ setToken)

/-- A template with the set token only. -/
def setOnlyTemplate : String := "intro " ++ setToken ++ " end"

/-! ## Validation and the entry point of the summary (`ValidateFile`,
`SummarizeSchema`)

The base64 decoder, the JSON decoder, the file system and the JSON-Schema
engine are library code; they are parameters of the model. -/

/-- A validation error of the JSON-Schema engine (`jsonschema.ValError`). -/
structure ValError where
  Message : String
deriving DecidableEq, Repr

/-- A non-nil Go `error` returned by the tool: the error of a library call, or
a validation error of the engine returned as an `error`. -/
inductive GoError where
  | lib (msg : String) : GoError
  | validation (e : ValError) : GoError
deriving DecidableEq, Repr

/-- The library calls made by `ValidateFile` and `SummarizeSchema`. -/
structure Library (Bytes Schema : Type) where
  /-- The call `base64.StdEncoding.DecodeString(jsonSchema64)`. -/
  decodeString : Except GoError Bytes
  /-- The call `json.Unmarshal(schemaBytes, rs)` into a `RootSchema`. -/
  unmarshalSchema : Bytes → Except GoError Schema
  /-- The call `json.Unmarshal(schemaBytes, &data)` into a map. -/
  unmarshalData : Bytes → Except GoError JMap
  /-- The call `ioutil.ReadFile(filename)`. -/
  readFile : String → Except GoError Bytes
  /-- The call `rs.ValidateBytes(modelData)`: the validation errors and the
  error result of the engine. -/
  validateBytes : Schema → Bytes → List ValError × Option GoError

/-- The function `ValidateFile` of `mof.go`; `none` is the nil error. The
error result of `ValidateBytes` is discarded, as by the blank identifier of
line 69. -/
def ValidateFile {Bytes Schema : Type} (lib : Library Bytes Schema) (filename : String) :
    Option GoError :=
  match lib.decodeString with
  | Except.error err => some err
  | Except.ok schemaBytes =>
    match lib.unmarshalSchema schemaBytes with
    | Except.error err => some err
    | Except.ok rs =>
      match lib.readFile filename with
      | Except.error err => some err
      | Except.ok modelData =>
        match (lib.validateBytes rs modelData).1 with
        | [] => none
        | e :: _ => some (GoError.validation e)

/-- The function `SummarizeSchema` of `mof.go`: the pair of its two results,
or `none` when one of the summarizers fails. -/
def SummarizeSchema {Bytes Schema : Type} (lib : Library Bytes Schema) :
    Option (String × Option GoError) :=
  match lib.decodeString with
  | Except.error err => some ("", some err)
  | Except.ok schemaBytes =>
    match lib.unmarshalData schemaBytes with
    | Except.error err => some ("", some err)
    | Except.ok data =>
      (summarizeNonlinear data).bind fun r =>
      (summarize data "scalar_sets").bind fun scalarSets =>
      (summarize data "vector_sets").bind fun vectorSets =>
      (summarize data "scalar_functions").bind fun scalarFunctions =>
      (summarize data "vector_functions").bind fun vectorFunctions =>
        some ("## Sets\n\n" ++
          "### Scalar Sets\n\n" ++
          scalarSets ++ "\n" ++
          "### Vector Sets\n\n" ++
          vectorSets ++ "\n" ++
          "## Functions\n\n" ++
          "### Scalar Functions\n\n" ++
          scalarFunctions ++ "\n" ++
          "### Vector Functions\n\n" ++
          vectorFunctions ++ "\n" ++
          "### Nonlinear functions\n\n" ++
          "#### Leaf nodes\n\n" ++
          r.2 ++ "\n" ++
          "#### Operators\n\n" ++
          r.1, none)

/-! ## Reference descriptions of the tables -/

/-- Concatenation of table rows, in order. -/
def joinRows : List String → String
  | [] => ""
  | r :: rs => r ++ joinRows rs

/-- The concatenation of `oneOfToObject branch` over the branches, in sequence
order. -/
def extractAll : List Json → Option (List Object)
  | [] => some []
  | b :: rest =>
    (assertMap (some b)).bind fun m =>
      (oneOfToObject m).bind fun os =>
        (extractAll rest).map fun tl => os ++ tl

/-- Each branch paired with the records extracted from it, in sequence order. -/
def extractBranches : List Json → Option (List (JMap × List Object))
  | [] => some []
  | b :: rest =>
    (assertMap (some b)).bind fun m =>
      (oneOfToObject m).bind fun os =>
        (extractBranches rest).map fun tl => (m, os) :: tl

/-- The arity word of a branch whose own description is exactly one of the
three operator tags. -/
def arityLabel (branch : JMap) : Option String :=
  match branch.lookup "description" with
  | some (Json.str s) =>
    if s = "Unary operators" then some "Unary"
    else if s = "Binary operators" then some "Binary"
    else if s = "N-ary operators" then some "N-ary"
    else none
  | _ => none

/-- The operator rows contributed by one branch. -/
def operatorRowsOf (b : JMap × List Object) : List String :=
  match arityLabel b.1 with
  | some l => b.2.map (formatOperatorRow l)
  | none => []

/-- The leaf rows contributed by one branch. -/
def leafRowsOf (b : JMap × List Object) : List String :=
  match arityLabel b.1 with
  | some _ => []
  | none =>
    match b.2 with
    | [o] => [formatRow o]
    | _ => []

/-- All operator rows, branch by branch. -/
def allOperatorRows : List (JMap × List Object) → List String
  | [] => []
  | b :: rest => operatorRowsOf b ++ allOperatorRows rest

/-- All leaf rows, branch by branch. -/
def allLeafRows : List (JMap × List Object) → List String
  | [] => []
  | b :: rest => leafRowsOf b ++ allLeafRows rest

/-- The `const` value and the `enum` entries found under `properties.head`
of a branch, in that order. -/
def declaredHeads (branch : Json) : List Json :=
  match branch with
  | Json.obj m =>
    match assertMap (m.lookup "properties") with
    | some props =>
      match assertMap (props.lookup "head") with
      | some head =>
        (head.lookup "const").toList ++
          (match head.lookup "enum" with
           | some (Json.arr xs) => xs
           | _ => [])
      | none => []
    | none => []
  | _ => []

/-- Every `const` value and every `enum` entry among the branches of a
category, in sequence order. -/
def allDeclaredHeads : List Json → List Json
  | [] => []
  | b :: rest => declaredHeads b ++ allDeclaredHeads rest

/-! ## Sample documents -/

/-- A branch with both `const` and `enum` under `properties.head`. -/
def constEnumHead : JMap :=
  [("enum", Json.arr [Json.str "A", Json.str "B"]), ("const", Json.str "Zeros")]

/-- A described branch with an example over `constEnumHead`. -/
def constEnumBranch : JMap :=
  [("description", Json.str "d1"), ("examples", Json.arr [Json.str "e1"]),
   ("properties", Json.obj [("head", Json.obj constEnumHead)])]

/-- The head `enum: [log, exp]`. -/
def logExpHead : JMap := [("enum", Json.arr [Json.str "log", Json.str "exp"])]

/-- A branch with a pipe in its description over `logExpHead`. -/
def logExpBranch : JMap :=
  [("description", Json.str "a|b"), ("properties", Json.obj [("head", Json.obj logExpHead)])]

/-- A leaf branch: `const` head `Zeros`, description `d1`, example `e1`. -/
def zerosBranch : JMap :=
  [("description", Json.str "d1"), ("examples", Json.arr [Json.str "e1"]),
   ("properties", Json.obj [("head", Json.obj [("const", Json.str "Zeros")])])]

/-- A schema whose `scalar_sets` lists `zerosBranch` and then `logExpBranch`. -/
def twoBranchSchema : JMap :=
  [("definitions", Json.obj [("scalar_sets",
      Json.obj [("oneOf", Json.arr [Json.obj zerosBranch, Json.obj logExpBranch])])])]

/-- The branch `description: Unary operators`, head `enum: [log, exp]`. -/
def unaryBranch : JMap :=
  [("description", Json.str "Unary operators"),
   ("properties", Json.obj [("head", Json.obj logExpHead)])]

/-- A schema whose `NonlinearTerm` has the single branch `unaryBranch`. -/
def unarySchema : JMap :=
  [("definitions", Json.obj [("NonlinearTerm",
      Json.obj [("oneOf", Json.arr [Json.obj unaryBranch])])])]

/-- A branch without description whose head has neither `const` nor `enum`. -/
def emptyHeadBranch : JMap :=
  [("properties", Json.obj [("head", Json.obj [])])]

/-- A binary-operator branch with the single operator `^`. -/
def binaryBranch : JMap :=
  [("description", Json.str "Binary operators"),
   ("properties", Json.obj [("head", Json.obj [("enum", Json.arr [Json.str "^"])])])]

/-- A leaf branch with `const` head `variable` and no description. -/
def variableBranch : JMap :=
  [("properties", Json.obj [("head", Json.obj [("const", Json.str "variable")])])]

/-- The branches of `mixedSchema`: a leaf, an untagged enum branch (two
records), an untagged branch with no record, two operator branches and a
second leaf. -/
def mixedTerms : List Json :=
  [Json.obj zerosBranch, Json.obj logExpBranch, Json.obj emptyHeadBranch,
   Json.obj binaryBranch, Json.obj unaryBranch, Json.obj variableBranch]

/-- A schema whose `NonlinearTerm` lists `mixedTerms`. -/
def mixedSchema : JMap :=
  [("definitions", Json.obj [("NonlinearTerm", Json.obj [("oneOf", Json.arr mixedTerms)])])]

/-- The records extracted from each branch of `mixedTerms`. -/
def mixedBranches : List (JMap × List Object) :=
  [(zerosBranch, [{ Head := "Zeros", Description := "d1", Example := "e1" }]),
   (logExpBranch, [{ Head := "log", Description := "a\\|b", Example := "" },
                   { Head := "exp", Description := "a\\|b", Example := "" }]),
   (emptyHeadBranch, []),
   (binaryBranch, [{ Head := "^", Description := "Binary operators", Example := "" }]),
   (unaryBranch, [{ Head := "log", Description := "Unary operators", Example := "" },
                  { Head := "exp", Description := "Unary operators", Example := "" }]),
   (variableBranch, [{ Head := "variable", Description := "", Example := "" }])]

/-- A `const` branch whose description and example both contain a pipe. -/
def pipeBranch : JMap :=
  [("description", Json.str "a|b"), ("examples", Json.arr [Json.str "x|y"]),
   ("properties", Json.obj [("head", Json.obj [("const", Json.str "Zeros")])])]

/-- A schema whose `scalar_sets` has the single branch `pipeBranch`. -/
def pipeSchema : JMap :=
  [("definitions", Json.obj [("scalar_sets",
      Json.obj [("oneOf", Json.arr [Json.obj pipeBranch])])])]

/-- A branch object with a description and no `properties` key. -/
def noPropertiesBranch : JMap := [("description", Json.str "d1")]

/-- A branch object whose `properties` object has no `head` key. -/
def noHeadBranch : JMap := [("properties", Json.obj [("value", Json.obj [])])]

/-- A `const` branch whose `examples` key holds the empty sequence. -/
def emptyExamplesBranch : JMap :=
  [("description", Json.str "d1"), ("examples", Json.arr []),
   ("properties", Json.obj [("head", Json.obj [("const", Json.str "Zeros")])])]

/-- A schema whose `scalar_sets.oneOf` is a sequence of two objects, the
second without `properties`. -/
def looseSchema : JMap :=
  [("definitions", Json.obj [("scalar_sets",
      Json.obj [("oneOf", Json.arr [Json.obj zerosBranch, Json.obj noPropertiesBranch])])])]

/-- The schema of the scenario: `scalar_sets.oneOf` is the single branch
`zerosBranch`. -/
def zerosSchema : JMap :=
  [("definitions", Json.obj [("scalar_sets",
      Json.obj [("oneOf", Json.arr [Json.obj zerosBranch])])])]

/-- A library whose engine reports two validation errors on the file. -/
def twoErrorsLibrary : Library String Unit where
  decodeString := Except.ok "schema"
  unmarshalSchema := fun _ => Except.ok ()
  unmarshalData := fun _ => Except.ok []
  readFile := fun _ => Except.ok "\x7b\x7d"
  validateBytes := fun _ _ =>
    ([ValError.mk "missing field", ValError.mk "second error"], none)

/-- A library whose file is not JSON: the engine returns no validation error
and a parse failure as its error result. -/
def malformedLibrary : Library String Unit where
  decodeString := Except.ok "schema"
  unmarshalSchema := fun _ => Except.ok ()
  unmarshalData := fun _ => Except.ok []
  readFile := fun _ => Except.ok "\x7b"
  validateBytes := fun _ _ => ([], some (GoError.lib "error parsing JSON bytes"))

/-- A schema with the four categories and `NonlinearTerm`. -/
def fullSchema : JMap :=
  [("definitions", Json.obj [
      ("scalar_sets", Json.obj [("oneOf", Json.arr [Json.obj zerosBranch])]),
      ("vector_sets", Json.obj [("oneOf", Json.arr [Json.obj zerosBranch])]),
      ("scalar_functions", Json.obj [("oneOf", Json.arr [Json.obj variableBranch])]),
      ("vector_functions", Json.obj [("oneOf", Json.arr [])]),
      ("NonlinearTerm", Json.obj [("oneOf", Json.arr mixedTerms)])])]

/-- A library whose embedded schema decodes to `fullSchema`. -/
def fullLibrary : Library String Unit where
  decodeString := Except.ok "schema"
  unmarshalSchema := fun _ => Except.ok ()
  unmarshalData := fun _ => Except.ok fullSchema
  readFile := fun _ => Except.ok ""
  validateBytes := fun _ _ => ([], none)

/-- A branch with the head `enum: [a]`, no `const`, and an empty `examples`
sequence. -/
def emptyExamplesEnumBranch : JMap :=
  [("examples", Json.arr []),
   ("properties", Json.obj [("head", Json.obj [("enum", Json.arr [Json.str "a"])])])]

/-- A schema whose `scalar_sets` has the single branch `constEnumBranch`. -/
def constEnumSchema : JMap :=
  [("definitions", Json.obj [("scalar_sets",
      Json.obj [("oneOf", Json.arr [Json.obj constEnumBranch])])])]

/-- The set summary that `generateDocs` builds from `fullSchema`. -/
def fullSetSummary : String :=
  "#### Scalar Sets\n\n| Name | Description | Example |\n| ---- | ----------- | ------- |\n"
    ++ "| `\"Zeros\"` | d1 |  |\n\n"
    ++ "#### Vector Sets\n\n| Name | Description | Example |\n"
    ++ "| ---- | ----------- | ------- |\n| `\"Zeros\"` | d1 |  |"

/-- The function summary that `generateDocs` builds from `fullSchema`. -/
def fullFunctionSummary : String :=
  "#### Scalar Functions\n\n| Name | Description | Example |\n"
    ++ "| ---- | ----------- | ------- |\n| `\"variable\"` |  |  |\n\n"
    ++ "#### Vector Functions\n\n| Name | Description | Example |\n"
    ++ "| ---- | ----------- | ------- |"

/-! ## Auxiliary lemmas -/

theorem assertMap_eq_some {v : Option Json} {m : JMap} :
    assertMap v = some m ↔ v = some (Json.obj m) := by
  unfold assertMap
  split <;> simp_all

theorem assertSlice_eq_some {v : Option Json} {xs : List Json} :
    assertSlice v = some xs ↔ v = some (Json.arr xs) := by
  unfold assertSlice
  split <;> simp_all

theorem assertString_eq_some {v : Option Json} {s : String} :
    assertString v = some s ↔ v = some (Json.str s) := by
  unfold assertString
  split <;> simp_all

theorem joinRows_append (xs ys : List String) :
    joinRows (xs ++ ys) = joinRows xs ++ joinRows ys := by
  induction xs with
  | nil => simp [joinRows]
  | cons x xs ih => simp [joinRows, ih, String.append_assoc]

theorem appendRows_eq (s : String) (os : List Object) :
    appendRows s os = s ++ joinRows (os.map formatRow) := by
  induction os generalizing s with
  | nil => simp [appendRows, joinRows]
  | cons o os ih =>
    have h : appendRows s (o :: os) = appendRows (s ++ formatRow o) os := rfl
    rw [h, ih]
    simp [joinRows, String.append_assoc]

theorem appendOperatorRows_eq (l s : String) (os : List Object) :
    appendOperatorRows l s os = s ++ joinRows (os.map (formatOperatorRow l)) := by
  induction os generalizing s with
  | nil => simp [appendOperatorRows, joinRows]
  | cons o os ih =>
    have h : appendOperatorRows l s (o :: os)
        = appendOperatorRows l (s ++ formatOperatorRow l o) os := rfl
    rw [h, ih]
    simp [joinRows, String.append_assoc]

theorem summarizeLoop_eq (s : String) (bs : List Json) :
    summarizeLoop s bs
      = (extractAll bs).map fun recs => s ++ joinRows (recs.map formatRow) := by
  induction bs generalizing s with
  | nil => simp [summarizeLoop, extractAll, joinRows]
  | cons b bs ih =>
    simp only [summarizeLoop, extractAll]
    cases assertMap (some b) with
    | none => rfl
    | some m =>
      simp only [Option.some_bind]
      cases oneOfToObject m with
      | none => rfl
      | some os =>
        simp only [Option.some_bind, ih, appendRows_eq]
        cases extractAll bs with
        | none => rfl
        | some tl => simp [joinRows_append, String.append_assoc]

theorem enumObjects_strings (d e : String) (vs : List String) :
    enumObjects d e (vs.map Json.str)
      = some (vs.map fun v => { Head := v, Description := d, Example := e }) := by
  induction vs with
  | nil => rfl
  | cons v vs ih => simp [enumObjects, assertString, ih]

theorem branchDescription_wellFormed (data : JMap)
    (hd : ∀ v, data.lookup "description" = some v → ∃ s, v = Json.str s) :
    ∃ d, branchDescription data = some d := by
  unfold branchDescription
  cases h : data.lookup "description" with
  | none => exact ⟨"", rfl⟩
  | some v =>
    obtain ⟨s, rfl⟩ := hd v h
    exact ⟨replacePipe s, rfl⟩

theorem branchExample_wellFormed (data : JMap)
    (he : ∀ v, data.lookup "examples" = some v → ∃ x xs, v = Json.arr (Json.str x :: xs)) :
    ∃ e, branchExample data = some e := by
  unfold branchExample
  cases h : data.lookup "examples" with
  | none => exact ⟨"", rfl⟩
  | some v =>
    obtain ⟨x, xs, rfl⟩ := he v h
    exact ⟨x, rfl⟩

theorem caseEq_str (s t : String) : caseEq (some (Json.str s)) t = decide (s = t) := rfl

theorem nonlinearStep_eq (acc : String × String) (m : JMap) :
    nonlinearStep acc (Json.obj m)
      = (oneOfToObject m).map fun os =>
          (acc.1 ++ joinRows (operatorRowsOf (m, os)),
           acc.2 ++ joinRows (leafRowsOf (m, os))) := by
  unfold nonlinearStep
  simp only [assertMap, Option.some_bind]
  congr 1
  funext os
  unfold operatorRowsOf leafRowsOf arityLabel
  simp only [appendOperatorRows_eq]
  cases hd : m.lookup "description" with
  | none => cases os with
    | nil => simp [caseEq, joinRows]
    | cons o tl => cases tl <;> simp [caseEq, joinRows]
  | some v =>
    cases v with
    | str s =>
      simp only [caseEq_str]
      by_cases h1 : s = "Unary operators"
      · simp [h1, joinRows]
      · by_cases h2 : s = "Binary operators"
        · simp [h2, joinRows]
        · by_cases h3 : s = "N-ary operators"
          · simp [h3, joinRows]
          · cases os with
            | nil => simp [h1, h2, h3, joinRows]
            | cons o tl => cases tl <;> simp [h1, h2, h3, joinRows]
    | _ => cases os with
      | nil => simp [caseEq, joinRows]
      | cons o tl => cases tl <;> simp [caseEq, joinRows]

theorem nonlinearLoop_eq (acc : String × String) (terms : List Json) :
    nonlinearLoop acc terms
      = (extractBranches terms).map fun bs =>
          (acc.1 ++ joinRows (allOperatorRows bs), acc.2 ++ joinRows (allLeafRows bs)) := by
  induction terms generalizing acc with
  | nil => simp [nonlinearLoop, extractBranches, allOperatorRows, allLeafRows, joinRows]
  | cons t rest ih =>
    simp only [nonlinearLoop, extractBranches]
    cases t with
    | obj m =>
      rw [nonlinearStep_eq]
      simp only [assertMap, Option.some_bind]
      cases oneOfToObject m with
      | none => rfl
      | some os =>
        simp only [Option.map_some', Option.some_bind, ih]
        cases extractBranches rest with
        | none => rfl
        | some tl =>
          simp [allOperatorRows, allLeafRows, joinRows_append, String.append_assoc]
    | _ => simp [nonlinearStep, assertMap]

theorem summarizeNonlinear_eq (data defs nt : JMap) (terms : List Json)
    (h1 : data.lookup "definitions" = some (Json.obj defs))
    (h2 : defs.lookup "NonlinearTerm" = some (Json.obj nt))
    (h3 : nt.lookup "oneOf" = some (Json.arr terms)) :
    summarizeNonlinear data
      = (extractBranches terms).map fun bs =>
          (operatorHeader ++ joinRows (allOperatorRows bs),
           tableHeader ++ joinRows (allLeafRows bs)) := by
  simp [summarizeNonlinear, h1, h2, h3, assertMap, assertSlice, nonlinearLoop_eq]

theorem summarizeNonlinear_shape (data : JMap) (r : String × String)
    (h : summarizeNonlinear data = some r) :
    ∃ defs nt terms,
      data.lookup "definitions" = some (Json.obj defs)
      ∧ defs.lookup "NonlinearTerm" = some (Json.obj nt)
      ∧ nt.lookup "oneOf" = some (Json.arr terms) := by
  unfold summarizeNonlinear at h
  obtain ⟨defs, h1, h⟩ := Option.bind_eq_some.mp h
  obtain ⟨nt, h2, h⟩ := Option.bind_eq_some.mp h
  obtain ⟨terms, h3, _⟩ := Option.bind_eq_some.mp h
  exact ⟨defs, nt, terms, assertMap_eq_some.mp h1, assertMap_eq_some.mp h2,
    assertSlice_eq_some.mp h3⟩

theorem arityLabel_unary (m : JMap)
    (h : m.lookup "description" = some (Json.str "Unary operators")) :
    arityLabel m = some "Unary" := by
  simp [arityLabel, h]

theorem arityLabel_binary (m : JMap)
    (h : m.lookup "description" = some (Json.str "Binary operators")) :
    arityLabel m = some "Binary" := by
  simp [arityLabel, h]

theorem arityLabel_nary (m : JMap)
    (h : m.lookup "description" = some (Json.str "N-ary operators")) :
    arityLabel m = some "N-ary" := by
  simp [arityLabel, h]

theorem arityLabel_untagged (m : JMap)
    (h1 : m.lookup "description" ≠ some (Json.str "Unary operators"))
    (h2 : m.lookup "description" ≠ some (Json.str "Binary operators"))
    (h3 : m.lookup "description" ≠ some (Json.str "N-ary operators")) :
    arityLabel m = none := by
  unfold arityLabel
  cases hd : m.lookup "description" with
  | none => rfl
  | some v =>
    cases v with
    | str s =>
      have e1 : s ≠ "Unary operators" := fun e => h1 (by rw [hd, e])
      have e2 : s ≠ "Binary operators" := fun e => h2 (by rw [hd, e])
      have e3 : s ≠ "N-ary operators" := fun e => h3 (by rw [hd, e])
      simp [e1, e2, e3]
    | _ => rfl

theorem replacePipeChars_of_not_mem (cs : List Char) (h : '|' ∉ cs) :
    replacePipeChars cs = cs := by
  induction cs with
  | nil => rfl
  | cons c cs ih =>
    have hc : c ≠ '|' := fun e => h (by simp [e])
    have hcs : '|' ∉ cs := fun e => h (List.mem_cons_of_mem _ e)
    simp [replacePipeChars, hc, ih hcs]

theorem replacePipe_of_not_mem (s : String) (h : '|' ∉ s.data) : replacePipe s = s := by
  unfold replacePipe
  rw [replacePipeChars_of_not_mem s.data h]

theorem extractAll_eq_none_iff (bs : List Json) :
    extractAll bs = none ↔ ∃ b ∈ bs, ∀ m, b = Json.obj m → oneOfToObject m = none := by
  induction bs with
  | nil => simp [extractAll]
  | cons b rest ih =>
    simp only [extractAll, List.mem_cons, exists_eq_or_imp]
    cases b with
    | obj m =>
      simp only [assertMap, Option.some_bind]
      cases ho : oneOfToObject m with
      | none =>
        simp only [Option.none_bind, true_iff]
        left
        intro m2 hm
        cases hm
        exact ho
      | some os =>
        simp only [Option.some_bind, Option.map_eq_none', ih]
        constructor
        · intro hr
          exact Or.inr hr
        · rintro (hl | hr)
          · have := hl m rfl
            rw [ho] at this
            cases this
          · exact hr
    | _ =>
      simp only [assertMap, Option.none_bind, true_iff]
      left
      intro m hm
      cases hm

theorem summarize_eq (data defs : JMap) (key : String)
    (h : data.lookup "definitions" = some (Json.obj defs)) :
    summarize data key
      = (assertMap (defs.lookup key)).bind fun keyData =>
          (assertSlice (keyData.lookup "oneOf")).bind fun bs =>
            (extractAll bs).map fun recs => tableHeader ++ joinRows (recs.map formatRow) := by
  simp [summarize, h, assertMap, summarizeLoop_eq]

/-! ## The variant extractor -/

/-- C1: a branch whose `properties.head` object has a `const` key holding the
string `c` (its `description`, if present, a string, and its `examples`, if
present, a non-empty sequence starting with a string) is extracted to exactly
one `Object`, whose `Head` is `c`; nothing is assumed about an `enum` key, so
`const` takes precedence over it. -/
theorem oneOfToObject_const (data props head : JMap) (c : String)
    (hp : data.lookup "properties" = some (Json.obj props))
    (hh : props.lookup "head" = some (Json.obj head))
    (hc : head.lookup "const" = some (Json.str c))
    (hd : ∀ v, data.lookup "description" = some v → ∃ s, v = Json.str s)
    (he : ∀ v, data.lookup "examples" = some v → ∃ x xs, v = Json.arr (Json.str x :: xs)) :
    ∃ o, oneOfToObject data = some [o] ∧ o.Head = c := by
  obtain ⟨d, hd1⟩ := branchDescription_wellFormed data hd
  obtain ⟨e, he1⟩ := branchExample_wellFormed data he
  refine ⟨{ Head := c, Description := d, Example := e }, ?_, rfl⟩
  simp [oneOfToObject, hd1, he1, hp, hh, hc, assertMap, assertString]

/-- Instance of C1: a branch with both a `const` and an `enum` key under
`properties.head`, a description and an example. -/
theorem oneOfToObject_const_witness :
    ∃ o, oneOfToObject constEnumBranch = some [o] ∧ o.Head = "Zeros" :=
  oneOfToObject_const constEnumBranch [("head", Json.obj constEnumHead)] constEnumHead
    "Zeros" rfl rfl rfl
    (fun v h => ⟨"d1", by
      have h1 : some (Json.str "d1") = some v := h
      exact (Option.some.inj h1).symm⟩)
    (fun v h => ⟨"e1", [], by
      have h1 : some (Json.arr [Json.str "e1"]) = some v := h
      exact (Option.some.inj h1).symm⟩)

theorem oneOfToObject_enum_eq (data props head : JMap) (vs : List String)
    (hp : data.lookup "properties" = some (Json.obj props))
    (hh : props.lookup "head" = some (Json.obj head))
    (hc : head.lookup "const" = none)
    (hv : head.lookup "enum" = some (Json.arr (vs.map Json.str))) :
    oneOfToObject data
      = ((branchDescription data).bind fun d => (branchExample data).bind fun e =>
          some (vs.map fun v => { Head := v, Description := d, Example := e })) := by
  simp [oneOfToObject, hp, hh, hc, hv, assertMap, assertSlice, enumObjects_strings]

/-- C2, as stated, fails: on a branch whose `properties.head` has no `const`
key and the enum of the one string `a`, and whose `examples` key holds the
empty sequence, the extraction fails instead of returning one record. -/
theorem oneOfToObject_enum_empty_examples_fails :
    emptyExamplesEnumBranch.lookup "properties"
        = some (Json.obj [("head", Json.obj [("enum", Json.arr [Json.str "a"])])])
    ∧ List.lookup "head" [("head", Json.obj [("enum", Json.arr [Json.str "a"])])]
        = some (Json.obj [("enum", Json.arr [Json.str "a"])])
    ∧ List.lookup "const" [("enum", Json.arr [Json.str "a"])] = none
    ∧ List.lookup "enum" [("enum", Json.arr [Json.str "a"])]
        = some (Json.arr ((["a"] : List String).map Json.str))
    ∧ emptyExamplesEnumBranch.lookup "examples" = some (Json.arr [])
    ∧ oneOfToObject emptyExamplesEnumBranch = none
    ∧ ∀ d e, oneOfToObject emptyExamplesEnumBranch
        ≠ some [{ Head := "a", Description := d, Example := e }] :=
  ⟨rfl, rfl, rfl, rfl, rfl, by decide, fun d e h => by
    have h0 : oneOfToObject emptyExamplesEnumBranch = none := by decide
    rw [h0] at h
    cases h⟩

/-- C2, amended: a branch whose `properties.head` has no `const` key and an
`enum` key holding the strings `vs`, whose `description`, if present, is a
string and whose `examples`, if present, is a non-empty sequence starting with
a string, is extracted to exactly `vs.length` records, the `i`-th with head
`vs[i]` (the order of the enum, each position once), all carrying the
description and the example computed from the branch itself. -/
theorem oneOfToObject_enum (data props head : JMap) (vs : List String)
    (hp : data.lookup "properties" = some (Json.obj props))
    (hh : props.lookup "head" = some (Json.obj head))
    (hc : head.lookup "const" = none)
    (hv : head.lookup "enum" = some (Json.arr (vs.map Json.str)))
    (hd : ∀ v, data.lookup "description" = some v → ∃ s, v = Json.str s)
    (he : ∀ v, data.lookup "examples" = some v → ∃ x xs, v = Json.arr (Json.str x :: xs)) :
    ∃ d e os, branchDescription data = some d
      ∧ branchExample data = some e
      ∧ oneOfToObject data = some os
      ∧ os.length = vs.length
      ∧ os.map Object.Head = vs
      ∧ (∀ i (h1 : i < os.length) (h2 : i < vs.length),
          (os.get ⟨i, h1⟩).Head = vs.get ⟨i, h2⟩)
      ∧ ∀ o ∈ os, o.Description = d ∧ o.Example = e := by
  obtain ⟨d, hd1⟩ := branchDescription_wellFormed data hd
  obtain ⟨e, he1⟩ := branchExample_wellFormed data he
  have key := oneOfToObject_enum_eq data props head vs hp hh hc hv
  refine ⟨d, e, vs.map fun v => { Head := v, Description := d, Example := e },
    hd1, he1, ?_, ?_, ?_, ?_, ?_⟩
  · rw [key, hd1, he1]; rfl
  · simp
  · simp [Function.comp_def]
  · intro i h1 h2
    simp
  · intro o ho
    simp only [List.mem_map] at ho
    obtain ⟨v, _, rfl⟩ := ho
    exact ⟨rfl, rfl⟩

/-- Instance of C2 amended: the enum `log`, `exp` under a branch with the
description `a|b` and no `examples` key. -/
theorem oneOfToObject_enum_witness :
    ∃ d e os, branchDescription logExpBranch = some d
      ∧ branchExample logExpBranch = some e
      ∧ oneOfToObject logExpBranch = some os
      ∧ os.length = 2
      ∧ os.map Object.Head = ["log", "exp"]
      ∧ (∀ i (h1 : i < os.length) (h2 : i < 2),
          (os.get ⟨i, h1⟩).Head = (["log", "exp"] : List String).get ⟨i, h2⟩)
      ∧ ∀ o ∈ os, o.Description = d ∧ o.Example = e :=
  oneOfToObject_enum logExpBranch [("head", Json.obj logExpHead)] logExpHead
    ["log", "exp"] rfl rfl rfl rfl
    (fun v h => ⟨"a|b", by
      have h1 : some (Json.str "a|b") = some v := h
      exact (Option.some.inj h1).symm⟩)
    (fun v h => by
      have h1 : (none : Option Json) = some v := h
      cases h1)

/-! ## The category summarizer -/

/-- C3: when `summarize` succeeds, its output is the two header lines followed
by one row per extracted record, the rows being rendered from the
concatenation of `oneOfToObject` over the branches of `definitions[key].oneOf`
in sequence order: as many rows as records, the `k`-th row rendered from the
`k`-th record. -/
theorem summarize_rows_in_order (data : JMap) (key out : String)
    (h : summarize data key = some out) :
    ∃ defs keyData branches recs,
      data.lookup "definitions" = some (Json.obj defs)
      ∧ defs.lookup key = some (Json.obj keyData)
      ∧ keyData.lookup "oneOf" = some (Json.arr branches)
      ∧ extractAll branches = some recs
      ∧ out = tableHeader ++ joinRows (recs.map formatRow)
      ∧ (recs.map formatRow).length = recs.length
      ∧ ∀ k (h1 : k < (recs.map formatRow).length) (h2 : k < recs.length),
          (recs.map formatRow).get ⟨k, h1⟩ = formatRow (recs.get ⟨k, h2⟩) := by
  unfold summarize at h
  obtain ⟨defs, h1, h⟩ := Option.bind_eq_some.mp h
  obtain ⟨keyData, h2, h⟩ := Option.bind_eq_some.mp h
  obtain ⟨branches, h3, h⟩ := Option.bind_eq_some.mp h
  rw [summarizeLoop_eq] at h
  obtain ⟨recs, h4, h5⟩ := Option.map_eq_some'.mp h
  refine ⟨defs, keyData, branches, recs, assertMap_eq_some.mp h1, assertMap_eq_some.mp h2,
    assertSlice_eq_some.mp h3, h4, h5.symm, by simp, ?_⟩
  intro k h1 h2
  simp

/-- Instance of C3: a category with a `const` branch followed by an `enum`
branch of two values gives three rows in that order. -/
theorem summarize_rows_in_order_witness :
    ∃ defs keyData branches recs,
      twoBranchSchema.lookup "definitions" = some (Json.obj defs)
      ∧ defs.lookup "scalar_sets" = some (Json.obj keyData)
      ∧ keyData.lookup "oneOf" = some (Json.arr branches)
      ∧ extractAll branches = some recs
      ∧ tableHeader ++ ("| `\"Zeros\"` | d1 | e1 |\n" ++ ("| `\"log\"` | a\\|b |  |\n"
            ++ "| `\"exp\"` | a\\|b |  |\n"))
          = tableHeader ++ joinRows (recs.map formatRow)
      ∧ (recs.map formatRow).length = recs.length
      ∧ ∀ k (h1 : k < (recs.map formatRow).length) (h2 : k < recs.length),
          (recs.map formatRow).get ⟨k, h1⟩ = formatRow (recs.get ⟨k, h2⟩) :=
  summarize_rows_in_order twoBranchSchema "scalar_sets" _ (by decide)

/-! ## The nonlinear classifier -/

/-- C4: when `summarizeNonlinear` succeeds, the operator table is its two
header lines followed by the operator rows of the branches of
`definitions.NonlinearTerm.oneOf` taken in sequence order: a branch whose own
description is exactly `Unary operators`, `Binary operators` or
`N-ary operators` gives one row per extracted record, in extraction order,
labelled `Unary`, `Binary` or `N-ary`, and any other branch gives none, so the
rows stay in branch order. The single branch `Unary operators` with head enum
`log`, `exp` gives the rows for `log` and `exp`, both `Unary`. -/
theorem summarizeNonlinear_operator_table (data : JMap) (operators leaves : String)
    (h : summarizeNonlinear data = some (operators, leaves)) :
    (∃ defs nt terms bs,
      data.lookup "definitions" = some (Json.obj defs)
      ∧ defs.lookup "NonlinearTerm" = some (Json.obj nt)
      ∧ nt.lookup "oneOf" = some (Json.arr terms)
      ∧ extractBranches terms = some bs
      ∧ operators = operatorHeader ++ joinRows (allOperatorRows bs)
      ∧ ∀ b ∈ bs,
          (b.1.lookup "description" = some (Json.str "Unary operators") →
            operatorRowsOf b = b.2.map (formatOperatorRow "Unary"))
          ∧ (b.1.lookup "description" = some (Json.str "Binary operators") →
            operatorRowsOf b = b.2.map (formatOperatorRow "Binary"))
          ∧ (b.1.lookup "description" = some (Json.str "N-ary operators") →
            operatorRowsOf b = b.2.map (formatOperatorRow "N-ary"))
          ∧ (b.1.lookup "description" ≠ some (Json.str "Unary operators") →
              b.1.lookup "description" ≠ some (Json.str "Binary operators") →
              b.1.lookup "description" ≠ some (Json.str "N-ary operators") →
            operatorRowsOf b = []))
    ∧ summarizeNonlinear unarySchema
        = some (operatorHeader ++ ("| `\"log\"` | Unary |\n" ++ "| `\"exp\"` | Unary |\n"),
                tableHeader) := by
  refine ⟨?_, by decide⟩
  obtain ⟨defs, nt, terms, h1, h2, h3⟩ := summarizeNonlinear_shape data _ h
  rw [summarizeNonlinear_eq data defs nt terms h1 h2 h3] at h
  obtain ⟨bs, h4, h5⟩ := Option.map_eq_some'.mp h
  refine ⟨defs, nt, terms, bs, h1, h2, h3, h4, (congrArg Prod.fst h5).symm, ?_⟩
  intro b _
  refine ⟨fun hu => ?_, fun hb => ?_, fun hn => ?_, fun n1 n2 n3 => ?_⟩
  · simp [operatorRowsOf, arityLabel_unary b.1 hu]
  · simp [operatorRowsOf, arityLabel_binary b.1 hb]
  · simp [operatorRowsOf, arityLabel_nary b.1 hn]
  · simp [operatorRowsOf, arityLabel_untagged b.1 n1 n2 n3]

/-- Instance of C4: binary and unary branches interleaved with leaf branches;
the `^` row of the binary branch comes before the unary rows, as in the
schema. -/
theorem summarizeNonlinear_operator_table_witness :
    (∃ defs nt terms bs,
      mixedSchema.lookup "definitions" = some (Json.obj defs)
      ∧ defs.lookup "NonlinearTerm" = some (Json.obj nt)
      ∧ nt.lookup "oneOf" = some (Json.arr terms)
      ∧ extractBranches terms = some bs
      ∧ operatorHeader ++ ("| `\"^\"` | Binary |\n"
            ++ ("| `\"log\"` | Unary |\n" ++ "| `\"exp\"` | Unary |\n"))
          = operatorHeader ++ joinRows (allOperatorRows bs)
      ∧ ∀ b ∈ bs,
          (b.1.lookup "description" = some (Json.str "Unary operators") →
            operatorRowsOf b = b.2.map (formatOperatorRow "Unary"))
          ∧ (b.1.lookup "description" = some (Json.str "Binary operators") →
            operatorRowsOf b = b.2.map (formatOperatorRow "Binary"))
          ∧ (b.1.lookup "description" = some (Json.str "N-ary operators") →
            operatorRowsOf b = b.2.map (formatOperatorRow "N-ary"))
          ∧ (b.1.lookup "description" ≠ some (Json.str "Unary operators") →
              b.1.lookup "description" ≠ some (Json.str "Binary operators") →
              b.1.lookup "description" ≠ some (Json.str "N-ary operators") →
            operatorRowsOf b = []))
    ∧ summarizeNonlinear unarySchema
        = some (operatorHeader ++ ("| `\"log\"` | Unary |\n" ++ "| `\"exp\"` | Unary |\n"),
                tableHeader) :=
  summarizeNonlinear_operator_table mixedSchema _
    (tableHeader ++ ("| `\"Zeros\"` | d1 | e1 |\n" ++ "| `\"variable\"` |  |  |\n"))
    (by decide)

/-- C5: when every branch of `definitions.NonlinearTerm.oneOf` is extracted,
`summarizeNonlinear` returns both tables, and the leaf table is its header
followed by the leaf rows of the branches in sequence order. A branch whose
description is none of the three operator tags (or is absent) gives exactly
the row of its record to the leaf table when exactly one record was extracted
and no row when zero or several were, and gives no row to the operator table;
a tagged branch gives no leaf row. -/
theorem summarizeNonlinear_leaf_table (data defs nt : JMap) (terms : List Json)
    (bs : List (JMap × List Object))
    (h1 : data.lookup "definitions" = some (Json.obj defs))
    (h2 : defs.lookup "NonlinearTerm" = some (Json.obj nt))
    (h3 : nt.lookup "oneOf" = some (Json.arr terms))
    (h4 : extractBranches terms = some bs) :
    summarizeNonlinear data
        = some (operatorHeader ++ joinRows (allOperatorRows bs),
                tableHeader ++ joinRows (allLeafRows bs))
      ∧ ∀ b ∈ bs,
          (b.1.lookup "description" ≠ some (Json.str "Unary operators") →
            b.1.lookup "description" ≠ some (Json.str "Binary operators") →
            b.1.lookup "description" ≠ some (Json.str "N-ary operators") →
              (∀ o, b.2 = [o] → leafRowsOf b = [formatRow o] ∧ operatorRowsOf b = [])
              ∧ (b.2.length ≠ 1 → leafRowsOf b = [] ∧ operatorRowsOf b = []))
          ∧ ((b.1.lookup "description" = some (Json.str "Unary operators")
                ∨ b.1.lookup "description" = some (Json.str "Binary operators")
                ∨ b.1.lookup "description" = some (Json.str "N-ary operators")) →
              leafRowsOf b = []) := by
  refine ⟨?_, ?_⟩
  · rw [summarizeNonlinear_eq data defs nt terms h1 h2 h3, h4]
    rfl
  · intro b _
    refine ⟨fun n1 n2 n3 => ⟨fun o ho => ?_, fun hl => ?_⟩, fun ht => ?_⟩
    · simp [leafRowsOf, operatorRowsOf, arityLabel_untagged b.1 n1 n2 n3, ho]
    · have hu := arityLabel_untagged b.1 n1 n2 n3
      obtain ⟨m, os⟩ := b
      cases os with
      | nil => simp [leafRowsOf, operatorRowsOf, hu]
      | cons o tl =>
        cases tl with
        | nil => exact absurd rfl hl
        | cons o2 tl2 => simp [leafRowsOf, operatorRowsOf, hu]
    · rcases ht with hu | hb | hn
      · simp [leafRowsOf, arityLabel_unary b.1 hu]
      · simp [leafRowsOf, arityLabel_binary b.1 hb]
      · simp [leafRowsOf, arityLabel_nary b.1 hn]

/-- Instance of C5 on `mixedSchema`: of the three untagged branches with one
record only `Zeros` and `variable` exist, and they give the two leaf rows in
branch order; the untagged branches with two and with zero records give
nothing. -/
theorem summarizeNonlinear_leaf_table_witness :
    (summarizeNonlinear mixedSchema
        = some (operatorHeader ++ joinRows (allOperatorRows mixedBranches),
                tableHeader ++ joinRows (allLeafRows mixedBranches))
      ∧ ∀ b ∈ mixedBranches,
          (b.1.lookup "description" ≠ some (Json.str "Unary operators") →
            b.1.lookup "description" ≠ some (Json.str "Binary operators") →
            b.1.lookup "description" ≠ some (Json.str "N-ary operators") →
              (∀ o, b.2 = [o] → leafRowsOf b = [formatRow o] ∧ operatorRowsOf b = [])
              ∧ (b.2.length ≠ 1 → leafRowsOf b = [] ∧ operatorRowsOf b = []))
          ∧ ((b.1.lookup "description" = some (Json.str "Unary operators")
                ∨ b.1.lookup "description" = some (Json.str "Binary operators")
                ∨ b.1.lookup "description" = some (Json.str "N-ary operators")) →
              leafRowsOf b = []))
    ∧ allLeafRows mixedBranches
        = ["| `\"Zeros\"` | d1 | e1 |\n", "| `\"variable\"` |  |  |\n"] :=
  ⟨summarizeNonlinear_leaf_table mixedSchema
      [("NonlinearTerm", Json.obj [("oneOf", Json.arr mixedTerms)])]
      [("oneOf", Json.arr mixedTerms)] mixedTerms mixedBranches rfl rfl rfl rfl,
    by decide⟩

/-! ## Pipe escaping -/

/-- C6: on a branch whose description is `a|b` and whose example is `x|y`,
`summarize` escapes the pipe of the description and copies the example
unchanged: the Example cell of the row contains an unescaped pipe. -/
theorem summarize_example_pipe_unescaped :
    summarize pipeSchema "scalar_sets"
      = some (tableHeader ++ "| `\"Zeros\"` | a\\|b | x|y |\n") := by
  decide

/-! ## Branches outside the expected shape -/

/-- C7, as stated, fails: a branch object with no `properties` key, and one
whose `properties` has no `head` key, are not extracted to the empty sequence;
the extraction fails on both. -/
theorem oneOfToObject_without_head_fails :
    noPropertiesBranch.lookup "properties" = none
      ∧ oneOfToObject noPropertiesBranch ≠ some []
      ∧ oneOfToObject noPropertiesBranch = none
      ∧ noHeadBranch.lookup "properties" = some (Json.obj [("value", Json.obj [])])
      ∧ List.lookup "head" [("value", Json.obj [])] = none
      ∧ oneOfToObject noHeadBranch ≠ some []
      ∧ oneOfToObject noHeadBranch = none :=
  ⟨rfl, by decide, by decide, rfl, rfl, by decide, by decide⟩

/-- C7, amended: `oneOfToObject` fails on every branch object that has no
`properties.head` sub-object; it returns the empty sequence, without failing,
on a branch whose `properties.head` is an object with neither a `const` nor an
`enum` key, provided the description and the example of the branch can be
read. -/
theorem oneOfToObject_head_required (data : JMap) :
    ((¬ ∃ props head, data.lookup "properties" = some (Json.obj props)
          ∧ props.lookup "head" = some (Json.obj head)) →
        oneOfToObject data = none)
    ∧ (∀ props head d e,
        data.lookup "properties" = some (Json.obj props) →
        props.lookup "head" = some (Json.obj head) →
        head.lookup "const" = none →
        head.lookup "enum" = none →
        branchDescription data = some d →
        branchExample data = some e →
        oneOfToObject data = some []) := by
  constructor
  · intro hno
    unfold oneOfToObject
    cases hd : branchDescription data with
    | none => rfl
    | some d =>
      cases he : branchExample data with
      | none => rfl
      | some e =>
        simp only [Option.some_bind]
        cases hp : assertMap (data.lookup "properties") with
        | none => rfl
        | some props =>
          simp only [Option.some_bind]
          cases hh : assertMap (props.lookup "head") with
          | none => rfl
          | some head =>
            exact absurd ⟨props, head, assertMap_eq_some.mp hp, assertMap_eq_some.mp hh⟩ hno
  · intro props head d e hp hh hc hv hd he
    simp [oneOfToObject, hp, hh, hc, hv, hd, he, assertMap]

/-- Instance of C7 amended: the branch without `properties` fails, the branch
with an empty `properties.head` object gives the empty sequence. -/
theorem oneOfToObject_head_required_witness :
    oneOfToObject noPropertiesBranch = none ∧ oneOfToObject emptyHeadBranch = some [] :=
  ⟨(oneOfToObject_head_required noPropertiesBranch).1 (by
      rintro ⟨props, head, hp, _⟩
      have h : (none : Option Json) = some (Json.obj props) := hp
      cases h),
   (oneOfToObject_head_required emptyHeadBranch).2 [("head", Json.obj [])] [] "" ""
      rfl rfl rfl rfl rfl rfl⟩

/-- C8, as stated, fails: on a `const` branch whose `examples` key holds the
empty sequence the extraction fails instead of returning the empty example. -/
theorem oneOfToObject_empty_examples_fails :
    emptyExamplesBranch.lookup "examples" = some (Json.arr [])
      ∧ oneOfToObject emptyExamplesBranch = none
      ∧ oneOfToObject emptyExamplesBranch
          ≠ some [{ Head := "Zeros", Description := "d1", Example := "" }] :=
  ⟨rfl, by decide, by decide⟩

/-- C8, amended: on a branch with a string `const` head `c`, whose
`description` is absent or a string and whose `examples` is absent or a
non-empty sequence starting with a string, the extraction does not fail and
returns one record with head `c`; its Description is the pipe-escaped
description when the key is present and empty when it is absent; its Example
is the first element of `examples` when the key is present and empty when it
is absent. -/
theorem oneOfToObject_const_defaults (data props head : JMap) (c : String)
    (hp : data.lookup "properties" = some (Json.obj props))
    (hh : props.lookup "head" = some (Json.obj head))
    (hc : head.lookup "const" = some (Json.str c))
    (hd : data.lookup "description" = none ∨ ∃ s, data.lookup "description" = some (Json.str s))
    (he : data.lookup "examples" = none
      ∨ ∃ x xs, data.lookup "examples" = some (Json.arr (Json.str x :: xs))) :
    ∃ o, oneOfToObject data = some [o]
      ∧ o.Head = c
      ∧ (data.lookup "description" = none → o.Description = "")
      ∧ (∀ s, data.lookup "description" = some (Json.str s) → o.Description = replacePipe s)
      ∧ (data.lookup "examples" = none → o.Example = "")
      ∧ (∀ x xs, data.lookup "examples" = some (Json.arr (Json.str x :: xs)) →
          o.Example = x) := by
  rcases hd with hd | ⟨s, hd⟩ <;> rcases he with he | ⟨x, xs, he⟩
  · refine ⟨{ Head := c, Description := "", Example := "" }, ?_, rfl, ?_, ?_, ?_, ?_⟩
    · simp [oneOfToObject, branchDescription, branchExample, hd, he, hp, hh, hc, assertMap,
        assertString]
    all_goals simp [hd, he]
  · refine ⟨{ Head := c, Description := "", Example := x }, ?_, rfl, ?_, ?_, ?_, ?_⟩
    · simp [oneOfToObject, branchDescription, branchExample, hd, he, hp, hh, hc, assertMap,
        assertString, assertSlice]
    all_goals simp [hd, he]
  · refine ⟨{ Head := c, Description := replacePipe s, Example := "" }, ?_, rfl, ?_, ?_, ?_, ?_⟩
    · simp [oneOfToObject, branchDescription, branchExample, hd, he, hp, hh, hc, assertMap,
        assertString]
    all_goals simp [hd, he]
  · refine ⟨{ Head := c, Description := replacePipe s, Example := x }, ?_, rfl, ?_, ?_, ?_, ?_⟩
    · simp [oneOfToObject, branchDescription, branchExample, hd, he, hp, hh, hc, assertMap,
        assertString, assertSlice]
    all_goals simp [hd, he]

/-- Instance of C8 amended on `pipeBranch` (description `a|b`, example
`x|y`). -/
theorem oneOfToObject_const_defaults_witness :
    ∃ o, oneOfToObject pipeBranch = some [o]
      ∧ o.Head = "Zeros"
      ∧ (pipeBranch.lookup "description" = none → o.Description = "")
      ∧ (∀ s, pipeBranch.lookup "description" = some (Json.str s) →
          o.Description = replacePipe s)
      ∧ (pipeBranch.lookup "examples" = none → o.Example = "")
      ∧ (∀ x xs, pipeBranch.lookup "examples" = some (Json.arr (Json.str x :: xs)) →
          o.Example = x) :=
  oneOfToObject_const_defaults pipeBranch
    [("head", Json.obj [("const", Json.str "Zeros")])] [("const", Json.str "Zeros")] "Zeros"
    rfl rfl rfl (Or.inr ⟨"a|b", rfl⟩) (Or.inr ⟨"x|y", [], rfl⟩)

/-! ## Failure of the category summarizer -/

/-- C9, as stated, fails: `looseSchema` has a `definitions` object in which
`scalar_sets` is an object with a `oneOf` sequence of objects, and `summarize`
fails on it because its second branch has no `properties`. -/
theorem summarize_fails_on_loose_branch :
    (∃ defs keyData branches,
      looseSchema.lookup "definitions" = some (Json.obj defs)
      ∧ defs.lookup "scalar_sets" = some (Json.obj keyData)
      ∧ keyData.lookup "oneOf" = some (Json.arr branches)
      ∧ ∀ b ∈ branches, ∃ m, b = Json.obj m)
    ∧ summarize looseSchema "scalar_sets" = none := by
  refine ⟨⟨_, _, _, rfl, rfl, rfl, ?_⟩, by decide⟩
  intro b hb
  simp only [List.mem_cons, List.mem_singleton, List.not_mem_nil, or_false] at hb
  rcases hb with rfl | rfl
  · exact ⟨_, rfl⟩
  · exact ⟨_, rfl⟩

/-- C9, amended: on a schema with a `definitions` object, `summarize` fails if
and only if the key is absent from `definitions`, or `definitions[key]` is not
an object with a `oneOf` sequence, or some element of that sequence is not an
object on which `oneOfToObject` succeeds. -/
theorem summarize_fails_iff (data defs : JMap) (key : String)
    (h : data.lookup "definitions" = some (Json.obj defs)) :
    summarize data key = none ↔
      (defs.lookup key = none
        ∨ (¬ ∃ keyData branches, defs.lookup key = some (Json.obj keyData)
              ∧ keyData.lookup "oneOf" = some (Json.arr branches))
        ∨ ∃ keyData branches, defs.lookup key = some (Json.obj keyData)
              ∧ keyData.lookup "oneOf" = some (Json.arr branches)
              ∧ ∃ b ∈ branches, ∀ m, b = Json.obj m → oneOfToObject m = none) := by
  rw [summarize_eq data defs key h]
  cases hk : assertMap (defs.lookup key) with
  | none =>
    simp only [Option.none_bind, true_iff]
    right; left
    rintro ⟨keyData, branches, h1, _⟩
    rw [assertMap_eq_some.mpr h1] at hk
    cases hk
  | some keyData =>
    have hk1 := assertMap_eq_some.mp hk
    simp only [Option.some_bind]
    cases ho : assertSlice (keyData.lookup "oneOf") with
    | none =>
      simp only [Option.none_bind, true_iff]
      right; left
      rintro ⟨kd, branches, h1, h2⟩
      rw [hk1] at h1
      cases h1
      rw [assertSlice_eq_some.mpr h2] at ho
      cases ho
    | some branches =>
      have ho1 := assertSlice_eq_some.mp ho
      simp only [Option.some_bind, Option.map_eq_none', extractAll_eq_none_iff]
      constructor
      · intro hb
        exact Or.inr (Or.inr ⟨keyData, branches, hk1, ho1, hb⟩)
      · rintro (h1 | h2 | ⟨kd, bs, h1, h2, hb⟩)
        · rw [hk1] at h1
          cases h1
        · exact absurd ⟨keyData, branches, hk1, ho1⟩ h2
        · rw [hk1] at h1
          cases h1
          rw [ho1] at h2
          cases h2
          exact hb

/-- Instance of C9 amended on `looseSchema`, read from left to right: the
summarizer fails there, so one of the three causes holds. -/
theorem summarize_fails_iff_witness :
    summarize looseSchema "scalar_sets" = none ↔
      (List.lookup "scalar_sets" [("scalar_sets", Json.obj [("oneOf",
            Json.arr [Json.obj zerosBranch, Json.obj noPropertiesBranch])])] = none
        ∨ (¬ ∃ keyData branches,
              List.lookup "scalar_sets" [("scalar_sets", Json.obj [("oneOf",
                Json.arr [Json.obj zerosBranch, Json.obj noPropertiesBranch])])]
                  = some (Json.obj keyData)
              ∧ keyData.lookup "oneOf" = some (Json.arr branches))
        ∨ ∃ keyData branches,
              List.lookup "scalar_sets" [("scalar_sets", Json.obj [("oneOf",
                Json.arr [Json.obj zerosBranch, Json.obj noPropertiesBranch])])]
                  = some (Json.obj keyData)
              ∧ keyData.lookup "oneOf" = some (Json.arr branches)
              ∧ ∃ b ∈ branches, ∀ m, b = Json.obj m → oneOfToObject m = none) :=
  summarize_fails_iff looseSchema _ "scalar_sets" rfl

/-! ## The scenario of a single `const` branch -/

/-- C10, as stated, fails: the row emitted for head `Zeros`, description `d1`
and example `e1` is not the text with a bare quoted head; the head is wrapped
in backquotes. -/
theorem summarize_zeros_row_has_backquotes :
    summarize zerosSchema "scalar_sets" ≠ some (tableHeader ++ "| \"Zeros\" | d1 | e1 |\n")
      ∧ summarize zerosSchema "scalar_sets"
          = some (tableHeader ++ "| `\"Zeros\"` | d1 | e1 |\n") :=
  ⟨by decide, by decide⟩

/-- C10, amended: when `definitions.scalar_sets.oneOf` is exactly one branch
with `properties.head` holding `const: h`, description `d` and examples `[e]`
(`d` and `e` without a pipe), `summarize` returns the table header followed by
exactly one row, the head in double quotes inside backquotes, then `d`, then
`e`. -/
theorem summarize_single_const (data defs keyData branch props head : JMap) (h d e : String)
    (h1 : data.lookup "definitions" = some (Json.obj defs))
    (h2 : defs.lookup "scalar_sets" = some (Json.obj keyData))
    (h3 : keyData.lookup "oneOf" = some (Json.arr [Json.obj branch]))
    (h4 : branch.lookup "properties" = some (Json.obj props))
    (h5 : props.lookup "head" = some (Json.obj head))
    (h6 : head.lookup "const" = some (Json.str h))
    (h7 : branch.lookup "description" = some (Json.str d))
    (h8 : branch.lookup "examples" = some (Json.arr [Json.str e]))
    (hd : '|' ∉ d.data) (_he : '|' ∉ e.data) :
    summarize data "scalar_sets"
      = some (tableHeader ++ ("| `\"" ++ h ++ "\"` | " ++ d ++ " | " ++ e ++ " |\n")) := by
  have hx : oneOfToObject branch = some [{ Head := h, Description := d, Example := e }] := by
    simp [oneOfToObject, branchDescription, branchExample, h4, h5, h6, h7, h8, assertMap,
      assertString, assertSlice, replacePipe_of_not_mem d hd]
  rw [summarize_eq data defs "scalar_sets" h1]
  simp [h2, h3, assertMap, assertSlice, extractAll, hx, joinRows, formatRow]

/-- Instance of C10 amended: the scenario `Zeros`, `d1`, `e1`. -/
theorem summarize_single_const_witness :
    summarize zerosSchema "scalar_sets"
      = some (tableHeader ++ ("| `\"" ++ "Zeros" ++ "\"` | " ++ "d1" ++ " | " ++ "e1" ++ " |\n")) :=
  summarize_single_const zerosSchema
    [("scalar_sets", Json.obj [("oneOf", Json.arr [Json.obj zerosBranch])])]
    [("oneOf", Json.arr [Json.obj zerosBranch])] zerosBranch
    [("head", Json.obj [("const", Json.str "Zeros")])] [("const", Json.str "Zeros")]
    "Zeros" "d1" "e1" rfl rfl rfl rfl rfl rfl rfl rfl (by decide) (by decide)

/-! ## The readme builder -/

theorem enumSets_toObject (d e : String) (xs : List Json) :
    (enumSets d e xs).map (List.map Set.toObject) = enumObjects d e xs := by
  induction xs with
  | nil => rfl
  | cons x xs ih =>
    simp only [enumSets, enumObjects]
    cases assertString (some x) with
    | none => rfl
    | some h =>
      simp only [Option.some_bind, ← ih]
      cases enumSets d e xs with
      | none => rfl
      | some sets => rfl

theorem setDescription_eq (data : JMap) : setDescription data = branchDescription data := by
  unfold setDescription branchDescription
  cases data.lookup "description" with
  | none => rfl
  | some v => rfl

theorem processOneOf_toObject (data : JMap)
    (h1 : data.lookup "example" = none) (h2 : data.lookup "examples" = none) :
    (processOneOf data).map (List.map Set.toObject) = oneOfToObject data := by
  have he1 : setExample data = some "" := by simp [setExample, h1, assertString]; rfl
  have he2 : branchExample data = some "" := by simp [branchExample, h2]
  unfold processOneOf oneOfToObject
  rw [setDescription_eq, he1, he2]
  cases branchDescription data with
  | none => rfl
  | some d =>
    simp only [Option.some_bind]
    cases assertMap (data.lookup "properties") with
    | none => rfl
    | some props =>
      simp only [Option.some_bind]
      cases assertMap (props.lookup "head") with
      | none => rfl
      | some head =>
        simp only [Option.some_bind]
        cases head.lookup "const" with
        | some val =>
          simp only []
          cases assertString (some val) with
          | none => rfl
          | some c => rfl
        | none =>
          simp only []
          cases head.lookup "enum" with
          | none => rfl
          | some val =>
            simp only []
            cases assertSlice (some val) with
            | none => rfl
            | some xs => exact enumSets_toObject d "" xs

theorem successiveLookups_none (keys : List String) :
    keys.foldl (fun d k => d.bind fun x => assertMap (x.lookup k)) (none : Option JMap)
      = none := by
  induction keys with
  | nil => rfl
  | cons k ks ih => simpa [List.foldl] using ih

theorem nestedGet_eq_successiveLookups (m : JMap) (keys : List String) :
    nestedGet m keys = successiveLookups m keys := by
  induction keys generalizing m with
  | nil => rfl
  | cons k ks ih =>
    simp only [nestedGet, successiveLookups, List.foldl, Option.some_bind]
    cases assertMap (m.lookup k) with
    | none => simp [successiveLookups_none]
    | some d => simpa [successiveLookups] using ih d

/-- C11: on the branch with `const` head `Zeros`, description `d1` and
`examples: [e1]`, the row rendered by `processStrings` through `processOneOf`
has an empty Example cell: the readme builder reads the key `example`, not the
first element of `examples`. -/
theorem processStrings_ignores_examples :
    processStrings "Scalar Sets" zerosSchema "scalar_sets"
      = some ("#### Scalar Sets\n\n| Name | Description | Example |\n"
          ++ "| ---- | ----------- | ------- |\n| `\"Zeros\"` | d1 |  |") := by
  decide

/-- C18: on a branch object with neither an `example` nor an `examples` key,
`processOneOf` and `oneOfToObject` agree: both fail, or both return sequences
of the same length whose records at each position have the same Head,
Description and Example. -/
theorem processOneOf_agrees_with_oneOfToObject (data : JMap)
    (h1 : data.lookup "example" = none) (h2 : data.lookup "examples" = none) :
    (processOneOf data = none ∧ oneOfToObject data = none)
    ∨ ∃ sets objs, processOneOf data = some sets ∧ oneOfToObject data = some objs
        ∧ sets.length = objs.length
        ∧ ∀ i (hs : i < sets.length) (ho : i < objs.length),
            (sets.get ⟨i, hs⟩).Head = (objs.get ⟨i, ho⟩).Head
            ∧ (sets.get ⟨i, hs⟩).Description = (objs.get ⟨i, ho⟩).Description
            ∧ (sets.get ⟨i, hs⟩).Example = (objs.get ⟨i, ho⟩).Example := by
  have key := processOneOf_toObject data h1 h2
  cases hp : processOneOf data with
  | none =>
    left
    rw [hp] at key
    exact ⟨rfl, key.symm⟩
  | some sets =>
    right
    rw [hp] at key
    refine ⟨sets, sets.map Set.toObject, rfl, key.symm, by simp, ?_⟩
    intro i hs ho
    simp [Set.toObject]

/-- Instance of C18 on the branch `description: a|b`, head `enum: [log, exp]`,
on which both functions return two records. -/
theorem processOneOf_agrees_with_oneOfToObject_witness :
    (processOneOf logExpBranch = none ∧ oneOfToObject logExpBranch = none)
    ∨ ∃ sets objs, processOneOf logExpBranch = some sets
        ∧ oneOfToObject logExpBranch = some objs
        ∧ sets.length = objs.length
        ∧ ∀ i (hs : i < sets.length) (ho : i < objs.length),
            (sets.get ⟨i, hs⟩).Head = (objs.get ⟨i, ho⟩).Head
            ∧ (sets.get ⟨i, hs⟩).Description = (objs.get ⟨i, ho⟩).Description
            ∧ (sets.get ⟨i, hs⟩).Example = (objs.get ⟨i, ho⟩).Example :=
  processOneOf_agrees_with_oneOfToObject logExpBranch rfl rfl

/-- C19: the two versions of `processStrings` give the same result (both fail
or both return the same markdown) for every title, schema and key;
`nestedGet` on the empty key list returns the map itself, and on keys
`k1, ..., kn` it is the `n` successive object lookups. -/
theorem processStrings_versions_agree :
    (∀ title data key,
      processStrings title data key = ReadmeSrc.processStrings title data key)
    ∧ (∀ m, nestedGet m [] = some m)
    ∧ (∀ m keys, nestedGet m keys = successiveLookups m keys)
    ∧ (∀ m k1 k2, nestedGet m [k1, k2]
        = (assertMap (m.lookup k1)).bind fun d => assertMap (d.lookup k2)) := by
  refine ⟨?_, fun _ => rfl, nestedGet_eq_successiveLookups, ?_⟩
  · intro title data key
    unfold processStrings ReadmeSrc.processStrings
    simp only [nestedGet]
    cases assertMap (data.lookup "definitions") with
    | none => rfl
    | some defs =>
      simp only [Option.some_bind]
      cases assertMap (defs.lookup key) with
      | none => rfl
      | some sets => rfl
  · intro m k1 k2
    simp only [nestedGet]
    cases assertMap (m.lookup k1) with
    | none => rfl
    | some d =>
      simp only [Option.some_bind]
      cases assertMap (d.lookup k2) with
      | none => rfl
      | some d2 => rfl

/-! ## Template mode -/

theorem hasPrefix_self_append (old r : List Char) : hasPrefix (old ++ r) old = true := by
  induction old with
  | nil => cases r <;> rfl
  | cons p ps ih => simp [hasPrefix, ih]

theorem hasPrefix_append (old u r : List Char) (h : old.length ≤ u.length) :
    hasPrefix (u ++ r) old = hasPrefix u old := by
  induction old generalizing u with
  | nil => cases u <;> cases r <;> rfl
  | cons p ps ih =>
    cases u with
    | nil => simp at h
    | cons c cs =>
      have h1 : ps.length ≤ cs.length := by simpa using h
      simp [hasPrefix, ih cs h1]

theorem indexChars_self_append (old r : List Char) : indexChars old (old ++ r) = some 0 := by
  have h := hasPrefix_self_append old r
  cases ht : old ++ r with
  | nil =>
    rw [ht] at h
    simp [indexChars, h]
  | cons c cs =>
    rw [ht] at h
    simp [indexChars, h]

theorem indexChars_cons_append (old a r : List Char) (x : Char) :
    indexChars old (x :: (a ++ (old ++ r)))
      = if hasPrefix (x :: (a ++ old)) old then some 0
        else (indexChars old (a ++ (old ++ r))).map (· + 1) := by
  have hp : hasPrefix (x :: (a ++ (old ++ r))) old = hasPrefix (x :: (a ++ old)) old := by
    have h := hasPrefix_append old (x :: (a ++ old)) r (by simp; omega)
    simpa using h
  rw [indexChars, hp]

theorem indexChars_suffix_irrelevant (old a r1 r2 : List Char)
    (h : indexChars old (a ++ (old ++ r1)) = some a.length) :
    indexChars old (a ++ (old ++ r2)) = some a.length := by
  induction a with
  | nil => exact indexChars_self_append old r2
  | cons x a ih =>
    rw [List.cons_append, indexChars_cons_append] at h ⊢
    by_cases hx : hasPrefix (x :: (a ++ old)) old = true
    · rw [if_pos hx] at h
      simp at h
    · rw [if_neg hx] at h ⊢
      cases hi : indexChars old (a ++ (old ++ r1)) with
      | none => simp [hi] at h
      | some n =>
        rw [hi] at h
        have hn : n = a.length := by simpa using h
        subst hn
        rw [ih hi]
        rfl

theorem replaceOnceChars_at (old new a r : List Char)
    (h : indexChars old (a ++ (old ++ r)) = some a.length) :
    replaceOnceChars old new (a ++ (old ++ r)) = a ++ (new ++ r) := by
  unfold replaceOnceChars
  rw [h]
  simp

theorem replaceOnceChars_absent (old new t : List Char) (h : indexChars old t = none) :
    replaceOnceChars old new t = t := by
  unfold replaceOnceChars
  rw [h]

theorem Replace1_at (a old r new : String)
    (h : Index (a ++ old ++ r) old = some a.length) :
    Replace1 (a ++ old ++ r) old new = a ++ new ++ r := by
  apply String.ext
  have h0 : indexChars old.data ((a.data ++ old.data) ++ r.data) = some a.data.length := h
  rw [List.append_assoc] at h0
  show replaceOnceChars old.data new.data ((a.data ++ old.data) ++ r.data)
    = (a.data ++ new.data) ++ r.data
  rw [List.append_assoc, List.append_assoc]
  exact replaceOnceChars_at old.data new.data a.data r.data h0

theorem Replace1_absent (s old new : String) (h : Index s old = none) :
    Replace1 s old new = s := by
  apply String.ext
  exact replaceOnceChars_absent old.data new.data s.data h

theorem Index_suffix_irrelevant (a old r1 r2 : String)
    (h : Index (a ++ old ++ r1) old = some a.length) :
    Index (a ++ old ++ r2) old = some a.length := by
  have h0 : indexChars old.data ((a.data ++ old.data) ++ r1.data) = some a.data.length := h
  rw [List.append_assoc] at h0
  show indexChars old.data ((a.data ++ old.data) ++ r2.data) = some a.data.length
  rw [List.append_assoc]
  exact indexChars_suffix_irrelevant old.data a.data r1.data r2.data h0

set_option maxRecDepth 20000

theorem hasPrefix_iff (t old : List Char) :
    hasPrefix t old = true ↔ ∀ i, i < old.length → t[i]? = old[i]? := by
  induction old generalizing t with
  | nil => simp [hasPrefix]
  | cons p ps ih =>
    cases t with
    | nil =>
      simp only [hasPrefix, Bool.false_eq_true, false_iff]
      intro h
      have := h 0 (by simp)
      simp at this
    | cons c cs =>
      simp only [hasPrefix, Bool.and_eq_true, beq_iff_eq, ih]
      constructor
      · rintro ⟨rfl, h⟩ i hi
        cases i with
        | zero => simp
        | succ i => simpa using h i (by simpa using hi)
      · intro h
        refine ⟨by simpa using h 0 (by simp), fun i hi => ?_⟩
        simpa using h (i + 1) (by simpa using hi)

theorem occursAt_iff (old t : List Char) (k : Nat) :
    occursAt old t k = true ↔ ∀ i, i < old.length → t[k + i]? = old[i]? := by
  simp only [occursAt, hasPrefix_iff, List.getElem?_drop]

theorem hasPrefix_eq_append (t old : List Char) (h : hasPrefix t old = true) :
    t = old ++ t.drop old.length := by
  induction old generalizing t with
  | nil => simp
  | cons p ps ih =>
    cases t with
    | nil => simp [hasPrefix] at h
    | cons c cs =>
      simp only [hasPrefix, Bool.and_eq_true, beq_iff_eq] at h
      obtain ⟨rfl, h2⟩ := h
      simp only [List.length_cons, List.drop_succ_cons, List.cons_append, List.cons.injEq,
        true_and]
      exact ih cs h2

theorem indexChars_some (old t : List Char) (n : Nat) (h : indexChars old t = some n) :
    occursAt old t n = true ∧ ∀ k, k < n → occursAt old t k = false := by
  induction t generalizing n with
  | nil =>
    simp only [indexChars] at h
    split at h
    · rename_i hp
      simp only [Option.some.injEq] at h
      subst h
      exact ⟨by simpa [occursAt] using hp, fun k hk => absurd hk (Nat.not_lt_zero k)⟩
    · cases h
  | cons c cs ih =>
    simp only [indexChars] at h
    split at h
    · rename_i hp
      simp only [Option.some.injEq] at h
      subst h
      exact ⟨by simpa [occursAt] using hp, fun k hk => absurd hk (Nat.not_lt_zero k)⟩
    · rename_i hp
      obtain ⟨m, hm, rfl⟩ := Option.map_eq_some'.mp h
      obtain ⟨h1, h2⟩ := ih m hm
      refine ⟨by simpa [occursAt] using h1, fun k hk => ?_⟩
      cases k with
      | zero => simpa [occursAt] using hp
      | succ k =>
        have := h2 k (by omega)
        simpa [occursAt] using this

theorem indexChars_of_occursAt (old t : List Char) (n : Nat) (h : occursAt old t n = true) :
    ∃ m, m ≤ n ∧ indexChars old t = some m := by
  induction t generalizing n with
  | nil =>
    have hp : hasPrefix [] old = true := by simpa [occursAt] using h
    exact ⟨0, Nat.zero_le _, by simp [indexChars, hp]⟩
  | cons c cs ih =>
    by_cases hp : hasPrefix (c :: cs) old = true
    · exact ⟨0, Nat.zero_le _, by simp [indexChars, hp]⟩
    · cases n with
      | zero => exact absurd (by simpa [occursAt] using h) hp
      | succ n =>
        obtain ⟨m, hm, hi⟩ := ih n (by simpa [occursAt] using h)
        exact ⟨m + 1, by omega, by simp [indexChars, hp, hi]⟩

theorem indexChars_eq_some_of_first (old t : List Char) (n : Nat)
    (h : occursAt old t n = true) (hmin : ∀ k, k < n → occursAt old t k = false) :
    indexChars old t = some n := by
  obtain ⟨m, hm, hi⟩ := indexChars_of_occursAt old t n h
  rcases Nat.lt_or_eq_of_le hm with hlt | rfl
  · have := (indexChars_some old t m hi).1
    rw [hmin m hlt] at this
    cases this
  · exact hi

theorem indexChars_none (old t : List Char) (h : indexChars old t = none) (k : Nat) :
    occursAt old t k = false := by
  cases hk : occursAt old t k with
  | false => rfl
  | true =>
    obtain ⟨m, _, hi⟩ := indexChars_of_occursAt old t k hk
    rw [h] at hi
    cases hi

theorem getElem?_insert_left (a u r : List Char) (n : Nat) (h : n < a.length) :
    (a ++ (u ++ r))[n]? = a[n]? := List.getElem?_append_left h

theorem getElem?_insert_mid (a u r : List Char) (n : Nat) (h : n < u.length) :
    (a ++ (u ++ r))[a.length + n]? = u[n]? := by
  rw [List.getElem?_append_right (Nat.le_add_right _ _), Nat.add_sub_cancel_left,
    List.getElem?_append_left h]

theorem getElem?_insert_right (a u r : List Char) (n : Nat) :
    (a ++ (u ++ r))[a.length + u.length + n]? = r[n]? := by
  rw [List.getElem?_append_right (by omega)]
  have e : a.length + u.length + n - a.length = u.length + n := by omega
  rw [e, List.getElem?_append_right (Nat.le_add_right _ _), Nat.add_sub_cancel_left]

theorem occursAt_insert_right (old a u r : List Char) (n : Nat) :
    occursAt old (a ++ (u ++ r)) (a.length + u.length + n) = occursAt old r n := by
  have e : ∀ i, (a ++ (u ++ r))[a.length + u.length + n + i]? = r[n + i]? := by
    intro i
    rw [Nat.add_assoc (a.length + u.length) n i]
    exact getElem?_insert_right a u r (n + i)
  cases h1 : occursAt old r n with
  | true =>
    rw [occursAt_iff] at h1 ⊢
    intro i hi
    rw [e, h1 i hi]
  | false =>
    cases h2 : occursAt old (a ++ (u ++ r)) (a.length + u.length + n) with
    | false => rfl
    | true =>
      rw [occursAt_iff] at h2
      have : occursAt old r n = true := by
        rw [occursAt_iff]
        intro i hi
        rw [← e, h2 i hi]
      rw [h1] at this
      cases this

/-- Inserting `s` for `S` keeps the first occurrence of `F` in place when `s`
contains no `F` and neither its first nor its last character occurs in `F`. -/
theorem indexChars_insert (F S a s r : List Char) (n : Nat) (x y : Char)
    (hF : 0 < F.length)
    (hx : s[0]? = some x) (hy : s[s.length - 1]? = some y)
    (hxF : x ∉ F) (hyF : y ∉ F)
    (hsF : indexChars F s = none)
    (h : indexChars F (a ++ (S ++ r)) = some (a.length + S.length + n)) :
    indexChars F (a ++ (s ++ r)) = some (a.length + s.length + n) := by
  obtain ⟨hocc, hmin⟩ := indexChars_some F _ _ h
  have hspos : 0 < s.length := by
    rcases Nat.eq_zero_or_pos s.length with h0 | h0
    · rw [List.getElem?_eq_none (by omega)] at hx
      cases hx
    · exact h0
  apply indexChars_eq_some_of_first
  · rw [occursAt_insert_right] at hocc ⊢
    exact hocc
  · intro k hk
    cases hk1 : occursAt F (a ++ (s ++ r)) k with
    | false => rfl
    | true =>
      exfalso
      rw [occursAt_iff] at hk1
      by_cases c1 : k + F.length ≤ a.length
      · -- entirely inside `a`
        have : occursAt F (a ++ (S ++ r)) k = true := by
          rw [occursAt_iff]
          intro i hi
          rw [getElem?_insert_left a S r (k + i) (by omega), ← hk1 i hi,
            getElem?_insert_left a s r (k + i) (by omega)]
        rw [hmin k (by omega)] at this
        cases this
      · by_cases c2 : k < a.length
        · -- covers the first character of `s`
          have h1 := hk1 (a.length - k) (by omega)
          have e : k + (a.length - k) = a.length + 0 := by omega
          rw [e, getElem?_insert_mid a s r 0 hspos, hx] at h1
          exact hxF (List.getElem?_mem h1.symm)
        · by_cases c3 : a.length + s.length ≤ k
          · -- entirely after `s`
            obtain ⟨q, rfl⟩ : ∃ q, k = a.length + s.length + q := ⟨k - (a.length + s.length), by omega⟩
            have : occursAt F (a ++ (S ++ r)) (a.length + S.length + q) = true := by
              rw [occursAt_insert_right]
              have h2 : occursAt F (a ++ (s ++ r)) (a.length + s.length + q) = true := by
                rw [occursAt_iff]; exact hk1
              rw [occursAt_insert_right] at h2
              exact h2
            rw [hmin _ (by omega)] at this
            cases this
          · by_cases c4 : k + F.length ≤ a.length + s.length
            · -- entirely inside `s`
              obtain ⟨q, rfl⟩ : ∃ q, k = a.length + q := ⟨k - a.length, by omega⟩
              have : occursAt F s q = true := by
                rw [occursAt_iff]
                intro i hi
                rw [← hk1 i hi, Nat.add_assoc, getElem?_insert_mid a s r (q + i) (by omega)]
              rw [indexChars_none F s hsF q] at this
              cases this
            · -- covers the last character of `s`
              have h1 := hk1 (a.length + s.length - 1 - k) (by omega)
              have e : k + (a.length + s.length - 1 - k) = a.length + (s.length - 1) := by omega
              rw [e, getElem?_insert_mid a s r (s.length - 1) (by omega), hy] at h1
              exact hyF (List.getElem?_mem h1.symm)

theorem occursAt_split (old t : List Char) (k : Nat) (hold : 0 < old.length)
    (h : occursAt old t k = true) :
    t = t.take k ++ (old ++ t.drop (k + old.length)) ∧ (t.take k).length = k := by
  have h1 := hasPrefix_eq_append (t.drop k) old h
  rw [List.drop_drop] at h1
  have hk : k < t.length := by
    have h2 := (occursAt_iff old t k).mp h 0 hold
    rcases Nat.lt_or_ge k t.length with hlt | hge
    · exact hlt
    · rw [List.getElem?_eq_none (by omega)] at h2
      have h3 : old[0]? ≠ none := by
        rw [Ne, List.getElem?_eq_none_iff]
        omega
      exact absurd h2.symm h3
  refine ⟨?_, by rw [List.length_take]; omega⟩
  rw [← h1, List.take_append_drop]

theorem tokens_shift_left :
    ∀ d, d < 41 → ∃ e, e < 46 ∧ d + e < 41
      ∧ functionToken.data[e]? ≠ setToken.data[d + e]? := by
  decide

theorem tokens_shift_right :
    ∀ d, d < 46 → 0 < d → ∃ e, e < 41 ∧ d + e < 46
      ∧ setToken.data[e]? ≠ functionToken.data[d + e]? := by
  decide

theorem tokens_disjoint (t : List Char) (i j : Nat)
    (hi : occursAt setToken.data t i = true) (hj : occursAt functionToken.data t j = true) :
    i + setToken.data.length ≤ j ∨ j + functionToken.data.length ≤ i := by
  have lS : setToken.data.length = 41 := rfl
  have lF : functionToken.data.length = 46 := rfl
  rw [occursAt_iff] at hi hj
  rw [lS, lF] at *
  by_contra hcon
  rcases Nat.lt_or_ge j i with hlt | hge
  · obtain ⟨e, he1, he2, hne⟩ := tokens_shift_right (i - j) (by omega) (by omega)
    have h1 := hi e he1
    have h2 := hj (i - j + e) he2
    have e1 : j + (i - j + e) = i + e := by omega
    rw [e1, h1] at h2
    exact hne h2
  · obtain ⟨e, he1, he2, hne⟩ := tokens_shift_left (j - i) (by omega)
    have h1 := hj e he1
    have h2 := hi (j - i + e) he2
    have e1 : i + (j - i + e) = j + e := by omega
    rw [e1, h1] at h2
    exact hne h2

theorem renderChars_first_occurrences (t s f : List Char) (i j : Nat) (x y : Char)
    (hi : indexChars setToken.data t = some i)
    (hj : indexChars functionToken.data t = some j)
    (hx : s[0]? = some x) (hy : s[s.length - 1]? = some y)
    (hxF : x ∉ functionToken.data) (hyF : y ∉ functionToken.data)
    (hsF : indexChars functionToken.data s = none) :
    (∃ a m c, t = a ++ (setToken.data ++ (m ++ (functionToken.data ++ c)))
        ∧ a.length = i ∧ a.length + setToken.data.length + m.length = j
        ∧ replaceOnceChars functionToken.data f (replaceOnceChars setToken.data s t)
            = a ++ (s ++ (m ++ (f ++ c))))
    ∨ (∃ a m c, t = a ++ (functionToken.data ++ (m ++ (setToken.data ++ c)))
        ∧ a.length = j ∧ a.length + functionToken.data.length + m.length = i
        ∧ replaceOnceChars functionToken.data f (replaceOnceChars setToken.data s t)
            = a ++ (f ++ (m ++ (s ++ c)))) := by
  have lS : 0 < setToken.data.length := by decide
  have lF : 0 < functionToken.data.length := by decide
  have oi := (indexChars_some _ _ _ hi).1
  have oj := (indexChars_some _ _ _ hj).1
  rcases tokens_disjoint t i j oi oj with hd | hd
  · left
    obtain ⟨ht, ha⟩ := occursAt_split _ t i lS oi
    generalize hr : t.drop (i + setToken.data.length) = r at ht
    generalize hA : t.take i = a at ht ha
    obtain ⟨n, rfl⟩ : ∃ n, j = a.length + setToken.data.length + n :=
      ⟨j - (i + setToken.data.length), by omega⟩
    rw [ht] at hi hj oj
    rw [occursAt_insert_right] at oj
    obtain ⟨hr2, hm⟩ := occursAt_split _ r n lF oj
    generalize hc : r.drop (n + functionToken.data.length) = c at hr2
    generalize hM : r.take n = m at hr2 hm
    refine ⟨a, m, c, by rw [ht, hr2], ha, by omega, ?_⟩
    rw [ht]
    rw [← ha] at hi
    rw [replaceOnceChars_at _ s a r hi]
    have hj2 := indexChars_insert functionToken.data setToken.data a s r n x y lF hx hy hxF hyF
      hsF hj
    rw [hr2] at hj2 ⊢
    have e1 : a ++ (s ++ (m ++ (functionToken.data ++ c)))
        = (a ++ (s ++ m)) ++ (functionToken.data ++ c) := by simp
    have e2 : a.length + s.length + n = (a ++ (s ++ m)).length := by
      simp only [List.length_append]; omega
    rw [e1, e2] at hj2
    rw [e1, replaceOnceChars_at _ f (a ++ (s ++ m)) c hj2]
    simp
  · right
    obtain ⟨ht, ha⟩ := occursAt_split _ t j lF oj
    generalize hr : t.drop (j + functionToken.data.length) = r at ht
    generalize hA : t.take j = a at ht ha
    obtain ⟨n, rfl⟩ : ∃ n, i = a.length + functionToken.data.length + n :=
      ⟨i - (j + functionToken.data.length), by omega⟩
    rw [ht] at hi hj oi
    rw [occursAt_insert_right] at oi
    obtain ⟨hr2, hm⟩ := occursAt_split _ r n lS oi
    generalize hc : r.drop (n + setToken.data.length) = c at hr2
    generalize hM : r.take n = m at hr2 hm
    refine ⟨a, m, c, by rw [ht, hr2], ha, by omega, ?_⟩
    rw [ht]
    rw [hr2] at hi ⊢
    have e1 : a ++ (functionToken.data ++ (m ++ (setToken.data ++ c)))
        = (a ++ (functionToken.data ++ m)) ++ (setToken.data ++ c) := by simp
    have e2 : a.length + functionToken.data.length + n
        = (a ++ (functionToken.data ++ m)).length := by
      simp only [List.length_append]; omega
    rw [e1, e2] at hi
    rw [e1, replaceOnceChars_at _ s (a ++ (functionToken.data ++ m)) c hi]
    rw [← ha] at hj
    have hj2 := indexChars_suffix_irrelevant functionToken.data a r (m ++ (s ++ c)) hj
    have e3 : (a ++ (functionToken.data ++ m)) ++ (s ++ c)
        = a ++ (functionToken.data ++ (m ++ (s ++ c))) := by simp
    rw [e3, replaceOnceChars_at _ f a (m ++ (s ++ c)) hj2]

theorem intercalate_go_head (acc s : String) (rest : List String) (x : Char)
    (h : acc.data.head? = some x) :
    (String.intercalate.go acc s rest).data.head? = some x := by
  induction rest generalizing acc with
  | nil => exact h
  | cons a rest ih =>
    apply ih
    simp [String.data_append, h]

theorem intercalate_go_last (acc s : String) (rest : List String) (y : Char)
    (h : ∀ z, (acc :: rest).getLast? = some z → z.data.getLast? = some y) :
    (String.intercalate.go acc s rest).data.getLast? = some y := by
  induction rest generalizing acc with
  | nil => exact h acc rfl
  | cons a rest ih =>
    apply ih
    intro z hz
    cases rest with
    | nil =>
      simp only [List.getLast?_singleton, Option.some.injEq] at hz
      subst hz
      have ha := h a (by simp)
      simp [String.data_append, ha]
    | cons b rest =>
      apply h z
      simpa using hz

theorem intercalate_head (s first : String) (rest : List String) (x : Char)
    (h : first.data.head? = some x) :
    (s.intercalate (first :: rest)).data.head? = some x :=
  intercalate_go_head first s rest x h

theorem intercalate_last (s first : String) (rest : List String) (y : Char)
    (h : ∀ z, (first :: rest).getLast? = some z → z.data.getLast? = some y) :
    (s.intercalate (first :: rest)).data.getLast? = some y :=
  intercalate_go_last first s rest y h

theorem appendSetRows_eq (acc : List String) (sets : List Set) :
    appendSetRows acc sets = acc ++ sets.map formatSetRow := by
  induction sets generalizing acc with
  | nil => simp [appendSetRows]
  | cons x xs ih =>
    have h : appendSetRows acc (x :: xs) = appendSetRows (acc ++ [formatSetRow x]) xs := rfl
    rw [h, ih]
    simp

theorem processLoop_shape (acc : List String) (bs : List Json) (l : List String)
    (h : processLoop acc bs = some l) :
    ∃ rows : List Set, l = acc ++ rows.map formatSetRow := by
  induction bs generalizing acc with
  | nil =>
    simp only [processLoop, Option.some.injEq] at h
    exact ⟨[], by simp [h]⟩
  | cons b rest ih =>
    simp only [processLoop] at h
    obtain ⟨m, _, h⟩ := Option.bind_eq_some.mp h
    obtain ⟨sets, _, h⟩ := Option.bind_eq_some.mp h
    obtain ⟨rows, hr⟩ := ih _ h
    rw [appendSetRows_eq] at hr
    exact ⟨sets ++ rows, by simp [hr]⟩

theorem formatSetRow_last (set : Set) : (formatSetRow set).data.getLast? = some '|' := by
  have e : (formatSetRow set).data
      = ("| `\"" ++ set.Head ++ "\"` | " ++ set.Description ++ " | " ++ set.Example).data
          ++ [' ', '|'] := rfl
  rw [e, List.getLast?_append]
  rfl

theorem setStrings_last (title : String) (rows : List Set) (z : String)
    (hz : (setStringsInit title ++ rows.map formatSetRow).getLast? = some z) :
    z.data.getLast? = some '|' := by
  rcases List.eq_nil_or_concat rows with rfl | ⟨L, b, rfl⟩
  · have e : z = "| ---- | ----------- | ------- |" := by
      simp [setStringsInit] at hz
      exact hz.symm
    subst e
    rfl
  · rw [List.concat_eq_append, List.map_append, ← List.append_assoc] at hz
    simp only [List.map_cons, List.map_nil, List.getLast?_concat, Option.some.injEq] at hz
    subst hz
    exact formatSetRow_last b

theorem processStrings_shape (title : String) (data : JMap) (key p : String)
    (h : processStrings title data key = some p) :
    p.data.head? = some '#' ∧ p.data.getLast? = some '|' := by
  unfold processStrings at h
  obtain ⟨sets, _, h⟩ := Option.bind_eq_some.mp h
  obtain ⟨branches, _, h⟩ := Option.bind_eq_some.mp h
  obtain ⟨l, hl, rfl⟩ := Option.map_eq_some'.mp h
  obtain ⟨rows, rfl⟩ := processLoop_shape _ _ _ hl
  have e : setStringsInit title ++ rows.map formatSetRow
      = ("#### " ++ title) :: (["", "| Name | Description | Example |",
          "| ---- | ----------- | ------- |"] ++ rows.map formatSetRow) := rfl
  constructor
  · rw [e]
    apply intercalate_head
    have e2 : ("#### " ++ title).data = '#' :: (['#', '#', '#', ' '] ++ title.data) := rfl
    rw [e2]
    rfl
  · rw [e]
    apply intercalate_last
    intro z hz
    rw [← e] at hz
    exact setStrings_last title rows z hz

theorem generateDocs_shape (data : JMap) (s fs : String)
    (h : generateDocs data = some (s, fs)) :
    s.data[0]? = some '#' ∧ s.data[s.data.length - 1]? = some '|' := by
  unfold generateDocs at h
  obtain ⟨a, ha, h⟩ := Option.bind_eq_some.mp h
  obtain ⟨b, hb, h⟩ := Option.bind_eq_some.mp h
  obtain ⟨c, _, h⟩ := Option.bind_eq_some.mp h
  obtain ⟨d, _, h⟩ := Option.map_eq_some'.mp h
  have hs : s = "\n".intercalate [a, "", b] := (congrArg Prod.fst h).symm
  subst hs
  rw [← List.head?_eq_getElem?, ← List.getLast?_eq_getElem?]
  constructor
  · exact intercalate_head _ a _ '#' (processStrings_shape _ _ _ _ ha).1
  · apply intercalate_last
    intro z hz
    have e : z = b := by
      simp at hz
      exact hz.symm
    subst e
    exact (processStrings_shape _ _ _ _ hb).2

/-- C12: template mode makes exactly one substitution per placeholder. For a
template `t` in which both tokens occur (first occurrences at `i` and `j`), a
set summary `s` built by `generateDocs` that does not contain the function
token, and any function summary `f`, the output is `t` with the first
occurrence of the set token replaced by `s` and the first occurrence of the
function token replaced by `f`; the text before, between and after the two
occurrences, later occurrences of either token included, is left verbatim. -/
theorem renderReadme_one_substitution_each (data : JMap) (t s fs f : String) (i j : Nat)
    (hgen : generateDocs data = some (s, fs))
    (hsF : Index s functionToken = none)
    (hi : Index t setToken = some i)
    (hj : Index t functionToken = some j) :
    (∃ a m c : String, t = a ++ setToken ++ m ++ functionToken ++ c
        ∧ a.length = i ∧ (a ++ setToken ++ m).length = j
        ∧ renderReadme t s f = a ++ s ++ m ++ f ++ c)
    ∨ (∃ a m c : String, t = a ++ functionToken ++ m ++ setToken ++ c
        ∧ a.length = j ∧ (a ++ functionToken ++ m).length = i
        ∧ renderReadme t s f = a ++ f ++ m ++ s ++ c) := by
  obtain ⟨hx, hy⟩ := generateDocs_shape data s fs hgen
  have hrender : (renderReadme t s f).data
      = replaceOnceChars functionToken.data f.data
          (replaceOnceChars setToken.data s.data t.data) := rfl
  rcases renderChars_first_occurrences t.data s.data f.data i j '#' '|' hi hj hx hy
      (by decide) (by decide) hsF with ⟨a, m, c, ht, ha, hm, hr⟩ | ⟨a, m, c, ht, ha, hm, hr⟩
  · left
    refine ⟨String.mk a, String.mk m, String.mk c, ?_, ha, ?_, ?_⟩
    · apply String.ext
      rw [ht]
      simp [String.data_append]
    · simp only [String.length_append]
      exact hm
    · apply String.ext
      rw [hrender, hr]
      simp [String.data_append]
  · right
    refine ⟨String.mk a, String.mk m, String.mk c, ?_, ha, ?_, ?_⟩
    · apply String.ext
      rw [ht]
      simp [String.data_append]
    · simp only [String.length_append]
      exact hm
    · apply String.ext
      rw [hrender, hr]
      simp [String.data_append]

/-- Instance of C12 on `plainTemplate` (set token, function token, a second
set token) with the set summary generated from `fullSchema`: the first set
token and the function token are replaced, the second set token stays. -/
theorem renderReadme_one_substitution_each_witness :
    ((∃ a m c : String, plainTemplate = a ++ setToken ++ m ++ functionToken ++ c
        ∧ a.length = 16 ∧ (a ++ setToken ++ m).length = 65
        ∧ renderReadme plainTemplate fullSetSummary "FUNCTIONS"
            = a ++ fullSetSummary ++ m ++ "FUNCTIONS" ++ c)
    ∨ (∃ a m c : String, plainTemplate = a ++ functionToken ++ m ++ setToken ++ c
        ∧ a.length = 65 ∧ (a ++ functionToken ++ m).length = 16
        ∧ renderReadme plainTemplate fullSetSummary "FUNCTIONS"
            = a ++ "FUNCTIONS" ++ m ++ fullSetSummary ++ c))
    ∧ renderReadme plainTemplate fullSetSummary "FUNCTIONS"
        = "# MathOptFormat\n" ++ fullSetSummary ++ "\nmiddle\n" ++ "FUNCTIONS"
            ++ ("\nend " ++ setToken) :=
  ⟨renderReadme_one_substitution_each fullSchema plainTemplate fullSetSummary
      fullFunctionSummary "FUNCTIONS" 16 65 (by decide) (by decide) (by decide) (by decide),
   by decide⟩


/-- C13, as stated, fails: the template consisting of the set token does not
contain the function token, and with the function token as set summary the
function summary `F` is inserted: the output is `F`, not the template with
only the set substitution applied. -/
theorem renderReadme_summary_brings_token :
    occurrences setToken functionToken = 0
    ∧ Index setToken functionToken = none
    ∧ Replace1 setToken setToken functionToken = functionToken
    ∧ renderReadme setToken functionToken "F" = "F"
    ∧ renderReadme setToken functionToken "F" ≠ Replace1 setToken setToken functionToken := by
  decide

/-- C13, amended: when the function token does not occur in the text obtained
by the set-summary substitution, the rendered readme is that text and the
function summary is not inserted; a template that contains neither token is
returned unchanged, whatever the summaries. -/
theorem renderReadme_missing_token (t s f : String) :
    (Index (Replace1 t setToken s) functionToken = none →
      renderReadme t s f = Replace1 t setToken s)
    ∧ (Index t setToken = none → Index t functionToken = none → renderReadme t s f = t) := by
  constructor
  · intro h
    exact Replace1_absent _ functionToken f h
  · intro h1 h2
    unfold renderReadme
    rw [Replace1_absent t setToken s h1]
    exact Replace1_absent t functionToken f h2

/-- Instance of C13 amended: a template with the set token only, and a
template with no token. -/
theorem renderReadme_missing_token_witness :
    renderReadme setOnlyTemplate "SETS" "FUNCTIONS" = Replace1 setOnlyTemplate setToken "SETS"
    ∧ Replace1 setOnlyTemplate setToken "SETS" = "intro SETS end"
    ∧ renderReadme "no token" "SETS" "FUNCTIONS" = "no token" :=
  ⟨(renderReadme_missing_token setOnlyTemplate "SETS" "FUNCTIONS").1 (by decide),
   by decide,
   (renderReadme_missing_token "no token" "SETS" "FUNCTIONS").2 (by decide) (by decide)⟩

/-! ## Validation -/

/-- C14: when the embedded schema decodes and the file is read, `ValidateFile`
returns no error exactly when the sequence of validation errors of the engine
is empty, and when that sequence is non-empty it returns its first element. -/
theorem ValidateFile_reports_first_error {Bytes Schema : Type} (lib : Library Bytes Schema)
    (filename : String) (schemaBytes modelData : Bytes) (rs : Schema)
    (h1 : lib.decodeString = Except.ok schemaBytes)
    (h2 : lib.unmarshalSchema schemaBytes = Except.ok rs)
    (h3 : lib.readFile filename = Except.ok modelData) :
    (ValidateFile lib filename = none ↔ (lib.validateBytes rs modelData).1 = [])
    ∧ ∀ e rest, (lib.validateBytes rs modelData).1 = e :: rest →
        ValidateFile lib filename = some (GoError.validation e) := by
  unfold ValidateFile
  simp only [h1, h2, h3]
  cases he : (lib.validateBytes rs modelData).1 with
  | nil => simp
  | cons e rest => simp

/-- Instance of C14: an engine reporting two errors; the first is returned. -/
theorem ValidateFile_reports_first_error_witness :
    (ValidateFile twoErrorsLibrary "model.json" = none
        ↔ (twoErrorsLibrary.validateBytes () "\x7b\x7d").1 = [])
    ∧ ∀ e rest, (twoErrorsLibrary.validateBytes () "\x7b\x7d").1 = e :: rest →
        ValidateFile twoErrorsLibrary "model.json" = some (GoError.validation e) :=
  ValidateFile_reports_first_error twoErrorsLibrary "model.json" "schema" "\x7b\x7d" ()
    rfl rfl rfl

/-- C15: when the engine reports a parse failure through its error result and
returns no validation error, `ValidateFile` returns the nil error: the file is
taken as conformant. -/
theorem ValidateFile_ignores_parse_failure :
    malformedLibrary.validateBytes () "\x7b"
        = ([], some (GoError.lib "error parsing JSON bytes"))
    ∧ ValidateFile malformedLibrary "bad.json" = none := by
  decide

/-! ## Heads of a category listing -/

theorem enumObjects_heads (d e : String) (xs : List Json) (os : List Object)
    (h : enumObjects d e xs = some os) :
    (os.map Object.Head).map Json.str = xs := by
  induction xs generalizing os with
  | nil =>
    simp only [enumObjects, Option.some.injEq] at h
    subst h
    rfl
  | cons x xs ih =>
    simp only [enumObjects] at h
    obtain ⟨hd, h1, h⟩ := Option.bind_eq_some.mp h
    obtain ⟨tl, h2, h3⟩ := Option.map_eq_some'.mp h
    subst h3
    have hx := assertString_eq_some.mp h1
    simp only [Option.some.injEq] at hx
    subst hx
    simp [ih tl h2]

theorem oneOfToObject_heads_sublist (m : JMap) (os : List Object)
    (h : oneOfToObject m = some os) :
    List.Sublist ((os.map Object.Head).map Json.str) (declaredHeads (Json.obj m)) := by
  unfold oneOfToObject at h
  obtain ⟨d, _, h⟩ := Option.bind_eq_some.mp h
  obtain ⟨e, _, h⟩ := Option.bind_eq_some.mp h
  obtain ⟨props, hp, h⟩ := Option.bind_eq_some.mp h
  obtain ⟨head, hh, h⟩ := Option.bind_eq_some.mp h
  simp only [declaredHeads, hp, hh]
  cases hc : head.lookup "const" with
  | some val =>
    rw [hc] at h
    obtain ⟨c, h1, h2⟩ := Option.map_eq_some'.mp h
    subst h2
    have hv := assertString_eq_some.mp h1
    simp only [Option.some.injEq] at hv
    subst hv
    simp
  | none =>
    rw [hc] at h
    cases hv : head.lookup "enum" with
    | none =>
      rw [hv] at h
      simp only [Option.some.injEq] at h
      subst h
      simp
    | some val =>
      rw [hv] at h
      obtain ⟨xs, h1, h2⟩ := Option.bind_eq_some.mp h
      have hx := assertSlice_eq_some.mp h1
      simp only [Option.some.injEq] at hx
      subst hx
      rw [enumObjects_heads d e xs os h2]
      simp

theorem extractAll_heads_sublist (bs : List Json) (recs : List Object)
    (h : extractAll bs = some recs) :
    List.Sublist ((recs.map Object.Head).map Json.str) (allDeclaredHeads bs) := by
  induction bs generalizing recs with
  | nil =>
    simp only [extractAll, Option.some.injEq] at h
    subst h
    simp [allDeclaredHeads]
  | cons b rest ih =>
    simp only [extractAll] at h
    obtain ⟨m, hm, h⟩ := Option.bind_eq_some.mp h
    obtain ⟨os, ho, h⟩ := Option.bind_eq_some.mp h
    obtain ⟨tl, ht, h3⟩ := Option.map_eq_some'.mp h
    subst h3
    have hb := assertMap_eq_some.mp hm
    simp only [Option.some.injEq] at hb
    subst hb
    simp only [allDeclaredHeads, List.map_append]
    exact List.Sublist.append (oneOfToObject_heads_sublist m os ho) (ih tl ht)

theorem oneOfToObject_heads_eq (m : JMap) (os : List Object)
    (h : oneOfToObject m = some os)
    (hb : ∀ props head, m.lookup "properties" = some (Json.obj props) →
      props.lookup "head" = some (Json.obj head) →
      head.lookup "const" = none ∨ head.lookup "enum" = none) :
    (os.map Object.Head).map Json.str = declaredHeads (Json.obj m) := by
  unfold oneOfToObject at h
  obtain ⟨d, _, h⟩ := Option.bind_eq_some.mp h
  obtain ⟨e, _, h⟩ := Option.bind_eq_some.mp h
  obtain ⟨props, hp, h⟩ := Option.bind_eq_some.mp h
  obtain ⟨head, hh, h⟩ := Option.bind_eq_some.mp h
  have hb1 := hb props head (assertMap_eq_some.mp hp) (assertMap_eq_some.mp hh)
  simp only [declaredHeads, hp, hh]
  cases hc : head.lookup "const" with
  | some val =>
    rw [hc] at h hb1
    obtain ⟨c, h1, h2⟩ := Option.map_eq_some'.mp h
    subst h2
    have hv := assertString_eq_some.mp h1
    simp only [Option.some.injEq] at hv
    subst hv
    rcases hb1 with hb1 | hb1
    · cases hb1
    · simp [hb1]
  | none =>
    rw [hc] at h
    cases hv : head.lookup "enum" with
    | none =>
      rw [hv] at h
      simp only [Option.some.injEq] at h
      subst h
      simp
    | some val =>
      rw [hv] at h
      obtain ⟨xs, h1, h2⟩ := Option.bind_eq_some.mp h
      have hx := assertSlice_eq_some.mp h1
      simp only [Option.some.injEq] at hx
      subst hx
      rw [enumObjects_heads d e xs os h2]
      simp

theorem extractAll_heads_eq (bs : List Json) (recs : List Object)
    (h : extractAll bs = some recs)
    (hb : ∀ m props head, Json.obj m ∈ bs → m.lookup "properties" = some (Json.obj props) →
      props.lookup "head" = some (Json.obj head) →
      head.lookup "const" = none ∨ head.lookup "enum" = none) :
    (recs.map Object.Head).map Json.str = allDeclaredHeads bs := by
  induction bs generalizing recs with
  | nil =>
    simp only [extractAll, Option.some.injEq] at h
    subst h
    simp [allDeclaredHeads]
  | cons b rest ih =>
    simp only [extractAll] at h
    obtain ⟨m, hm, h⟩ := Option.bind_eq_some.mp h
    obtain ⟨os, ho, h⟩ := Option.bind_eq_some.mp h
    obtain ⟨tl, ht, h3⟩ := Option.map_eq_some'.mp h
    subst h3
    have hb0 := assertMap_eq_some.mp hm
    simp only [Option.some.injEq] at hb0
    subst hb0
    simp only [allDeclaredHeads, List.map_append]
    rw [oneOfToObject_heads_eq m os ho
        (fun props head => hb m props head (List.mem_cons_self _ _)),
      ih tl ht (fun m2 props head hm2 => hb m2 props head (List.mem_cons_of_mem _ hm2))]

theorem Json_str_injective : Function.Injective Json.str := by
  intro a b h
  cases h
  rfl

/-- C16, as stated, fails in its last part: in `constEnumSchema` the `const`
value `Zeros` and the `enum` entries `A`, `B` are non-empty strings, pairwise
distinct, and the listing built by `summarize` has the single head `Zeros`:
the heads `A` and `B` are dropped. -/
theorem summarize_drops_enum_beside_const :
    allDeclaredHeads [Json.obj constEnumBranch]
        = (["Zeros", "A", "B"] : List String).map Json.str
    ∧ (∀ h ∈ (["Zeros", "A", "B"] : List String), h ≠ "")
    ∧ (["Zeros", "A", "B"] : List String).Nodup
    ∧ summarize constEnumSchema "scalar_sets"
        = some (tableHeader ++ "| `\"Zeros\"` | d1 | e1 |\n")
    ∧ extractAll [Json.obj constEnumBranch]
        = some [{ Head := "Zeros", Description := "d1", Example := "e1" }]
    ∧ ([{ Head := "Zeros", Description := "d1", Example := "e1" }] : List Object).map
        Object.Head ≠ ["Zeros", "A", "B"] :=
  ⟨rfl, by decide, by decide, by decide, by decide, by decide⟩

/-- C16, amended: when every `const` value and every `enum` entry among the branches of
the category is a string (`hs` lists them), non-empty, and they are pairwise
distinct, every record of the listing that `summarize` builds has a non-empty
head and no two records share a head; the heads of the listing are among `hs`,
in the same order, none invented or repeated, and they are exactly `hs` when
no `properties.head` has both a `const` and an `enum` key. -/
theorem summarize_heads_unique (data defs keyData : JMap) (key out : String)
    (branches : List Json) (hs : List String)
    (h1 : data.lookup "definitions" = some (Json.obj defs))
    (h2 : defs.lookup key = some (Json.obj keyData))
    (h3 : keyData.lookup "oneOf" = some (Json.arr branches))
    (hstr : allDeclaredHeads branches = hs.map Json.str)
    (hne : ∀ h ∈ hs, h ≠ "")
    (hnd : hs.Nodup)
    (hout : summarize data key = some out) :
    ∃ recs, extractAll branches = some recs
      ∧ out = tableHeader ++ joinRows (recs.map formatRow)
      ∧ (∀ r ∈ recs, r.Head ≠ "")
      ∧ (recs.map Object.Head).Nodup
      ∧ List.Sublist (recs.map Object.Head) hs
      ∧ ((∀ m props head, Json.obj m ∈ branches →
            m.lookup "properties" = some (Json.obj props) →
            props.lookup "head" = some (Json.obj head) →
            head.lookup "const" = none ∨ head.lookup "enum" = none) →
          recs.map Object.Head = hs) := by
  rw [summarize_eq data defs key h1] at hout
  simp only [h2, h3, assertMap, assertSlice, Option.some_bind] at hout
  obtain ⟨recs, hx, ho⟩ := Option.map_eq_some'.mp hout
  have hsub := extractAll_heads_sublist branches recs hx
  rw [hstr] at hsub
  obtain ⟨l, hl, hmap⟩ := List.sublist_map_iff.mp hsub
  have hl2 : recs.map Object.Head = l := List.map_injective_iff.mpr Json_str_injective hmap
  rw [← hl2] at hl
  refine ⟨recs, hx, ho.symm, ?_, List.Nodup.sublist hl hnd, hl, ?_⟩
  · intro r hr
    exact hne r.Head (hl.subset (List.mem_map_of_mem Object.Head hr))
  · intro hb
    have heq := extractAll_heads_eq branches recs hx hb
    rw [hstr] at heq
    exact List.map_injective_iff.mpr Json_str_injective heq

/-- Instance of C16 on `twoBranchSchema`, whose heads are `Zeros`, `log`,
`exp`. -/
theorem summarize_heads_unique_witness :
    ∃ recs, extractAll [Json.obj zerosBranch, Json.obj logExpBranch] = some recs
      ∧ tableHeader ++ ("| `\"Zeros\"` | d1 | e1 |\n" ++ ("| `\"log\"` | a\\|b |  |\n"
            ++ "| `\"exp\"` | a\\|b |  |\n"))
          = tableHeader ++ joinRows (recs.map formatRow)
      ∧ (∀ r ∈ recs, r.Head ≠ "")
      ∧ (recs.map Object.Head).Nodup
      ∧ List.Sublist (recs.map Object.Head) ["Zeros", "log", "exp"]
      ∧ ((∀ m props head, Json.obj m ∈ [Json.obj zerosBranch, Json.obj logExpBranch] →
            m.lookup "properties" = some (Json.obj props) →
            props.lookup "head" = some (Json.obj head) →
            head.lookup "const" = none ∨ head.lookup "enum" = none) →
          recs.map Object.Head = ["Zeros", "log", "exp"]) :=
  summarize_heads_unique twoBranchSchema
    [("scalar_sets", Json.obj [("oneOf", Json.arr [Json.obj zerosBranch, Json.obj logExpBranch])])]
    [("oneOf", Json.arr [Json.obj zerosBranch, Json.obj logExpBranch])]
    "scalar_sets" _ [Json.obj zerosBranch, Json.obj logExpBranch] ["Zeros", "log", "exp"]
    rfl rfl rfl rfl (by decide) (by decide) (by decide)

/-! ## The summary of the schema -/

theorem utf8ByteSize_go_ge_length (cs : List Char) :
    cs.length ≤ String.utf8ByteSize.go cs := by
  induction cs with
  | nil => exact Nat.le_refl 0
  | cons c cs ih =>
    have hc := Char.utf8Size_pos c
    simp only [List.length_cons, String.utf8ByteSize.go]
    omega

theorem utf8ByteSize_ge_length (s : String) : s.length ≤ s.utf8ByteSize :=
  utf8ByteSize_go_ge_length s.data

/-- C17: for a parsed schema on which the nonlinear summary and the four
category summaries succeed, `SummarizeSchema` returns the nil error and the
summary made of the fixed headings Sets, Scalar Sets, Vector Sets, Functions,
Scalar Functions, Vector Functions, Nonlinear functions, Leaf nodes,
Operators in this order, each category heading followed by its table; the
summary has at least 100 bytes. -/
theorem SummarizeSchema_summary {Bytes Schema : Type} (lib : Library Bytes Schema)
    (schemaBytes : Bytes) (data : JMap)
    (operators leaves scalarSets vectorSets scalarFunctions vectorFunctions : String)
    (h1 : lib.decodeString = Except.ok schemaBytes)
    (h2 : lib.unmarshalData schemaBytes = Except.ok data)
    (h3 : summarizeNonlinear data = some (operators, leaves))
    (h4 : summarize data "scalar_sets" = some scalarSets)
    (h5 : summarize data "vector_sets" = some vectorSets)
    (h6 : summarize data "scalar_functions" = some scalarFunctions)
    (h7 : summarize data "vector_functions" = some vectorFunctions) :
    ∃ summary, SummarizeSchema lib = some (summary, none)
      ∧ summary = "## Sets\n\n" ++ "### Scalar Sets\n\n" ++ scalarSets ++ "\n"
          ++ "### Vector Sets\n\n" ++ vectorSets ++ "\n"
          ++ "## Functions\n\n"
          ++ "### Scalar Functions\n\n" ++ scalarFunctions ++ "\n"
          ++ "### Vector Functions\n\n" ++ vectorFunctions ++ "\n"
          ++ "### Nonlinear functions\n\n"
          ++ "#### Leaf nodes\n\n" ++ leaves ++ "\n"
          ++ "#### Operators\n\n" ++ operators
      ∧ 100 ≤ summary.utf8ByteSize := by
  refine ⟨_, ?_, rfl, ?_⟩
  · unfold SummarizeSchema
    simp only [h1, h2, h3, h4, h5, h6, h7, Option.some_bind]
  · refine Nat.le_trans ?_ (utf8ByteSize_ge_length _)
    simp only [String.length_append]
    have e1 : ("## Sets\n\n").length = 9 := rfl
    have e2 : ("## Functions\n\n").length = 14 := rfl
    have e3 : ("### Scalar Functions\n\n").length = 22 := rfl
    have e4 : ("### Vector Functions\n\n").length = 22 := rfl
    have e5 : ("### Nonlinear functions\n\n").length = 25 := rfl
    have e6 : ("### Scalar Sets\n\n").length = 17 := rfl
    rw [e1, e2, e3, e4, e5, e6]
    omega

/-- Instance of C17 on `fullSchema`. -/
theorem SummarizeSchema_summary_witness :
    ∃ summary, SummarizeSchema fullLibrary = some (summary, none)
      ∧ summary = "## Sets\n\n" ++ "### Scalar Sets\n\n"
          ++ (tableHeader ++ "| `\"Zeros\"` | d1 | e1 |\n") ++ "\n"
          ++ "### Vector Sets\n\n" ++ (tableHeader ++ "| `\"Zeros\"` | d1 | e1 |\n") ++ "\n"
          ++ "## Functions\n\n"
          ++ "### Scalar Functions\n\n" ++ (tableHeader ++ "| `\"variable\"` |  |  |\n") ++ "\n"
          ++ "### Vector Functions\n\n" ++ tableHeader ++ "\n"
          ++ "### Nonlinear functions\n\n"
          ++ "#### Leaf nodes\n\n"
          ++ (tableHeader ++ ("| `\"Zeros\"` | d1 | e1 |\n" ++ "| `\"variable\"` |  |  |\n"))
          ++ "\n"
          ++ "#### Operators\n\n"
          ++ (operatorHeader ++ ("| `\"^\"` | Binary |\n"
              ++ ("| `\"log\"` | Unary |\n" ++ "| `\"exp\"` | Unary |\n")))
      ∧ 100 ≤ summary.utf8ByteSize :=
  SummarizeSchema_summary fullLibrary "schema" fullSchema _ _ _ _ _ _ rfl rfl
    (by decide) (by decide) (by decide) (by decide) (by decide)

end MOF
